import Mathlib

/-!
Verification development for the osm2pgsql/libosmium o5m input format decoder
(`src/contrib/libosmium/include/osmium/io/detail/o5m_input_format.hpp`) and the
packed item buffer (`src/contrib/libosmium/include/osmium/memory/buffer.hpp`).

The C++ sources are shallowly embedded: byte streams become `List UInt8`,
pointer cursors become explicit remaining-suffix lists, the reference table's
flat `std::string` storage becomes a total function `Nat → UInt8` (the
`std::string::resize` zero-fills, matching the all-zero default), and C++
exceptions become `Except` errors.  Machine integers are modelled as `Nat`/`Int`
with explicit `% 2 ^ 64` where the C++ computes in `uint64_t`.
-/

set_option maxHeartbeats 1000000

namespace O5m

/-- Error conditions of the o5m decoder.  Each constructor corresponds to one
`throw o5m_error{...}` site (or a protozero exception) in the C++ source. -/
inductive O5mError where
  /-- protozero `end_of_buffer_exception` / "premature end of file". -/
  | prematureEnd
  /-- protozero `varint_too_long_exception` (more than 10 bytes). -/
  | varintTooLong
  /-- "wrong header magic". -/
  | wrongHeaderMagic
  /-- "file too short (incomplete header info)". -/
  | fileTooShort
  /-- "reference to non-existing string in table". -/
  | refNonExisting
  /-- "string format error". -/
  | stringFormat
  /-- "missing user name". -/
  | missingUserName
  /-- "no null byte in user name". -/
  | noNullUserName
  /-- "no null byte in tag key". -/
  | noNullTagKey
  /-- "no null byte in tag value". -/
  | noNullTagValue
  /-- "uid out of range". -/
  | uidOutOfRange
  /-- "object version too large". -/
  | versionTooLarge
  /-- "premature end of file while parsing object metadata". -/
  | prematureEndMetadata
  /-- "way nodes ref section too long". -/
  | wayRefsTooLong
  /-- "relation format error". -/
  | relationFormat
  /-- "relation member format error". -/
  | relationMemberFormat
  /-- "missing role". -/
  | missingRole
  /-- "no null byte in role". -/
  | noNullRole
  /-- "unknown member type". -/
  | unknownMemberType
  /-- A violated `assert` in the C++ source (undefined behaviour in release). -/
  | assertFail
  /-- A read past the end of the available bytes that the C++ source would
  perform without a bounds check (undefined behaviour); unreachable for the
  inputs the decoder actually produces. -/
  | readPastEnd
deriving DecidableEq, Repr

/-! ## Varint / zig-zag codec

Modelled from the spec: the protozero varint functions are outside `src/`.
Spec §4.1: `read_uvarint` is base-128, LSB first, 7 data bits per byte, top
bit = continuation; it fails if more than 10 bytes are consumed or the input
is exhausted mid-varint, and produces a `u64`.
`read_svarint` is `(n >> 1) ^ -(n & 1)` applied to the uvarint. -/

/-- Modelled from the spec: one step of the base-128 varint decoder.
`shift` is the bit position of the next 7-bit group; at most 10 bytes
(shifts 0, 7, …, 63) may be consumed. -/
def decodeVarintLoop : List UInt8 → Nat → Nat → Except O5mError (Nat × List UInt8)
  | [], _, _ => .error .prematureEnd
  | b :: rest, shift, acc =>
    if 70 ≤ shift then .error .varintTooLong
    else
      let acc' := acc + b.toNat % 128 * 2 ^ shift
      if b.toNat < 128 then .ok (acc' % 2 ^ 64, rest)
      else decodeVarintLoop rest (shift + 7) acc'

/-- Modelled from the spec: `read_uvarint` (protozero `decode_varint`). -/
def decode_varint (l : List UInt8) : Except O5mError (Nat × List UInt8) :=
  decodeVarintLoop l 0 0

/-- Modelled from the spec: zig-zag decoding `(n >> 1) ^ -(n & 1)` of a
`u64` read as an `i64` (protozero `decode_zigzag64`). -/
def decode_zigzag64 (n : Nat) : Int :=
  if n % 2 = 0 then (n / 2 : Int) else -(n / 2 : Int) - 1

/-- `O5mParser::zvarint`: a zig-zag signed varint. -/
def zvarint (l : List UInt8) : Except O5mError (Int × List UInt8) := do
  let (n, r) ← decode_varint l
  .ok (decode_zigzag64 n, r)

/-- Helper: `Except` bind on a success. -/
theorem bindOk {ε α β : Type} (a : α) (f : α → Except ε β) :
    (Except.ok a >>= f) = f a := rfl

/-- Helper: `Except` bind on an error. -/
theorem bindErr {ε α β : Type} (e : ε) (f : α → Except ε β) :
    ((Except.error e : Except ε α) >>= f) = .error e := rfl

/-! ## ReferenceTable -/

/-- `ReferenceTable::number_of_entries`. -/
def tableEntries : Nat := 15000

/-- `ReferenceTable::entry_size`. -/
def entrySize : Nat := 256

/-- `ReferenceTable::max_length` (250 + 2 bytes). -/
def maxStrLength : Nat := 252

/-- Total size in bytes of the table's backing storage. -/
def tableBytes : Nat := tableEntries * entrySize

/-- The circular string-interning table.  `m_table` is modelled as a total
function from flat byte offset to byte (the `std::string` is zero-filled when
first resized, matching the all-zero default); `allocated` models
`!m_table.empty()`. -/
structure ReferenceTable where
  allocated : Bool
  table : Nat → UInt8
  current_entry : Nat

/-- A default-constructed `ReferenceTable` (storage not yet allocated). -/
def ReferenceTable.fresh : ReferenceTable :=
  ⟨false, fun _ => 0, 0⟩

/-- `std::copy_n(string, size, &m_table[off])`: write the bytes of `s`
starting at flat offset `off`. -/
def writeBytes : (Nat → UInt8) → Nat → List UInt8 → (Nat → UInt8)
  | f, _, [] => f
  | f, off, b :: bs => writeBytes (fun i => if i = off then b else f i) (off + 1) bs

/-- `ReferenceTable::clear`: only the cursor is zeroed; the backing storage
(and hence `allocated`) is untouched. -/
def ReferenceTable.clear (t : ReferenceTable) : ReferenceTable :=
  { t with current_entry := 0 }

/-- `ReferenceTable::add`: allocate the storage if needed, then, if the string
is short enough, copy it into the slot at `current_entry` and advance the
cursor (wrapping at 15000). -/
def ReferenceTable.add (t : ReferenceTable) (s : List UInt8) : ReferenceTable :=
  let t' : ReferenceTable := { t with allocated := true }
  if s.length ≤ maxStrLength then
    { t' with
      table := writeBytes t'.table (t'.current_entry * entrySize) s
      current_entry :=
        if t'.current_entry + 1 = tableEntries then 0 else t'.current_entry + 1 }
  else t'

/-- `ReferenceTable::get`: returns the flat byte offset of the slot the C++
code returns a pointer to (`&m_table[entry * entry_size]`). -/
def ReferenceTable.get (t : ReferenceTable) (index : Nat) : Except O5mError Nat :=
  if t.allocated = false ∨ index = 0 ∨ tableEntries < index then
    .error .refNonExisting
  else
    .ok (((t.current_entry + tableEntries - index) % tableEntries) * entrySize)

/-- Fold `add` over a list of strings, in order. -/
def addAll (t : ReferenceTable) (l : List (List UInt8)) : ReferenceTable :=
  l.foldl ReferenceTable.add t

/-! ## Header decoding -/

/-- The data carried by `osmium::io::Header` that the o5m decoder touches. -/
structure HeaderData where
  has_multiple_object_versions : Bool := false
  bbox : Option (Int × Int × Int × Int) := none
  timestamp : Option Int := none
deriving DecidableEq, Repr

/-- `O5mParser::decode_header`: require 7 bytes, check the magic
`FF E0 04 'o' '5'`, then the file type byte (`'m'` data / `'c'` change),
then the version byte `'2'`.  Returns the header with the
`has_multiple_object_versions` flag set, plus the rest of the input. -/
def decode_header (input : List UInt8) : Except O5mError (HeaderData × List UInt8) :=
  match input with
  | b0 :: b1 :: b2 :: b3 :: b4 :: b5 :: b6 :: rest =>
    if b0 = 0xff ∧ b1 = 0xe0 ∧ b2 = 0x04 ∧ b3 = 0x6f ∧ b4 = 0x35 then
      if b5 = 0x6d then
        if b6 = 0x32 then .ok ({ has_multiple_object_versions := false }, rest)
        else .error .wrongHeaderMagic
      else if b5 = 0x63 then
        if b6 = 0x32 then .ok ({ has_multiple_object_versions := true }, rest)
        else .error .wrongHeaderMagic
      else .error .wrongHeaderMagic
    else .error .wrongHeaderMagic
  | _ => .error .fileTooShort

/-! ## Parser state

`O5mParser` keeps a `ReferenceTable` and one `osmium::DeltaDecode` per stream
quantity.  `DeltaDecode` lives in `osmium/util/delta.hpp`, which is not part of
the sources; it is modelled from the spec (§4.2): a single signed integer,
initially 0, where `update(delta)` returns and stores `prev + delta` and
`clear()` zeroes it.  Signed 64-bit arithmetic is modelled with unbounded
`Int` (signed overflow is undefined behaviour in the C++). -/

/-- Modelled from the spec: `DeltaDecode::update` returns `prev + delta`. -/
def deltaUpdate (prev delta : Int) : Int := prev + delta

/-- A decoded tag, way node list entry, or relation member role string. -/
abbrev ByteStr := List UInt8

/-- The per-object metadata decoded by `O5mParser::decode_info` /
`decode_user`.  Fields default to the `osmium::OSMObject` defaults used when
the corresponding section is absent. -/
structure InfoRes where
  version : Nat := 0
  timestamp : Int := 0
  changeset : Int := 0
  uid : Nat := 0
  user : ByteStr := []
deriving DecidableEq, Repr

/-- A decoded node.  `location = none` models the invalid
`osmium::Location{}` sentinel. -/
structure NodeData where
  id : Int
  info : InfoRes
  visible : Bool
  location : Option (Int × Int)
  tags : List (ByteStr × ByteStr)
deriving DecidableEq, Repr

/-- A decoded way. -/
structure WayData where
  id : Int
  info : InfoRes
  visible : Bool
  refs : List Int
  tags : List (ByteStr × ByteStr)
deriving DecidableEq, Repr

/-- A relation member; `mtype` is the nwr index (0 node, 1 way, 2 relation). -/
structure RelMember where
  mtype : Nat
  ref : Int
  role : ByteStr
deriving DecidableEq, Repr

/-- A decoded relation. -/
structure RelationData where
  id : Int
  info : InfoRes
  visible : Bool
  members : List RelMember
  tags : List (ByteStr × ByteStr)
deriving DecidableEq, Repr

/-- One object emitted into the output buffer. -/
inductive Entity where
  | node (n : NodeData)
  | way (w : WayData)
  | relation (r : RelationData)
deriving DecidableEq, Repr

/-- The `osmium::osm_entity_bits` mask the reader was configured with
(`read_types()`; fixed at construction). -/
structure EntityMask where
  nodes : Bool
  ways : Bool
  relations : Bool
deriving DecidableEq, Repr

/-- `osm_entity_bits::nothing`. -/
def EntityMask.nothing : EntityMask := ⟨false, false, false⟩

/-- The mask selecting all three object kinds. -/
def EntityMask.all : EntityMask := ⟨true, true, true⟩

/-- The mutable state of `O5mParser`: the reference table, all nine
`DeltaDecode` instances, the pending header, whether the header has been
published (`header_is_done()`), and the objects emitted so far.  Buffer
fan-out is not modelled: `outputs` is the flat sequence of committed
objects. -/
structure ParserState where
  refTable : ReferenceTable
  delta_id : Int
  delta_timestamp : Int
  delta_changeset : Int
  delta_lon : Int
  delta_lat : Int
  delta_way_node_id : Int
  delta_member_id0 : Int
  delta_member_id1 : Int
  delta_member_id2 : Int
  header : HeaderData
  header_done : Bool
  outputs : List Entity

/-- The parser state right after construction. -/
def initState : ParserState where
  refTable := ReferenceTable.fresh
  delta_id := 0
  delta_timestamp := 0
  delta_changeset := 0
  delta_lon := 0
  delta_lat := 0
  delta_way_node_id := 0
  delta_member_id0 := 0
  delta_member_id1 := 0
  delta_member_id2 := 0
  header := {}
  header_done := false
  outputs := []

/-- `O5mParser::reset`: clear the reference table cursor and zero every
`DeltaDecode`. -/
def ParserState.reset (st : ParserState) : ParserState :=
  { st with
    refTable := st.refTable.clear
    delta_id := 0
    delta_timestamp := 0
    delta_changeset := 0
    delta_lon := 0
    delta_lat := 0
    delta_way_node_id := 0
    delta_member_id0 := 0
    delta_member_id1 := 0
    delta_member_id2 := 0 }

/-- `mark_header_as_done` (publication of the header to the sink). -/
def ParserState.markHeaderDone (st : ParserState) : ParserState :=
  { st with header_done := true }

/-- Append a completed object (`buffer().commit()` after a builder). -/
def ParserState.pushEntity (st : ParserState) (e : Entity) : ParserState :=
  { st with outputs := st.outputs ++ [e] }

/-- `m_delta_member_ids[i]` as a read. -/
def ParserState.memberDelta (st : ParserState) : Nat → Int
  | 0 => st.delta_member_id0
  | 1 => st.delta_member_id1
  | _ => st.delta_member_id2

/-- `m_delta_member_ids[i]` as an update. -/
def ParserState.setMemberDelta (st : ParserState) (i : Nat) (v : Int) : ParserState :=
  match i with
  | 0 => { st with delta_member_id0 := v }
  | 1 => { st with delta_member_id1 := v }
  | _ => { st with delta_member_id2 := v }

/-! ## String decoding -/

/-- Result of `O5mParser::decode_string`: either the returned pointer aims at
the bytes right after the leading `0x00` (the inline form; those bytes are the
new outer remaining input), or it aims into the reference table at the given
flat offset. -/
inductive StrSrc where
  | inline
  | ref (off : Nat)
deriving DecidableEq, Repr

/-- `O5mParser::decode_string`.  Returns the string source together with the
new outer remaining input (`*dataptr`): past the `0x00` for the inline form,
past the index varint for the reference form. -/
def decode_string (st : ParserState) (input : List UInt8) :
    Except O5mError (StrSrc × List UInt8) :=
  match input with
  | [] => .error .assertFail
  | b :: rest =>
    if b = 0 then
      if rest = [] then .error .stringFormat
      else .ok (.inline, rest)
    else do
      let (index, r₁) ← decode_varint input
      let off ← st.refTable.get index
      .ok (.ref off, r₁)

/-- The C++ loop `while (*data++) if (data == end) throw e;`: consume bytes
up to and including the first NUL, returning the bytes before the NUL and the
remaining input.  The end check fires after a nonzero byte was consumed and
the cursor reached `end`.  (An empty input would be an unchecked read past
`end` in the C++.) -/
def scanField (e : O5mError) : List UInt8 → Except O5mError (ByteStr × List UInt8)
  | [] => .error .readPastEnd
  | b :: rest =>
    if b = 0 then .ok ([], rest)
    else if rest.isEmpty then .error e
    else do
      let (s, r) ← scanField e rest
      .ok (b :: s, r)

/-- The C++ loop `do { if (data == end) throw e; } while (*data++);`: like
`scanField` but the end check precedes every read. -/
def scanFieldPre (e : O5mError) : List UInt8 → Except O5mError (ByteStr × List UInt8)
  | [] => .error e
  | b :: rest =>
    if b = 0 then .ok ([], rest)
    else do
      let (s, r) ← scanFieldPre e rest
      .ok (b :: s, r)

/-- A NUL-terminated scan over the reference table's storage.  The C++ walks a
`const char*` into `m_table` whose `data == end` comparisons (against the
payload's end pointer) never fire; `fuel` bounds the walk by the storage that
is physically there.  Returns the bytes before the NUL and the offset just
past it. -/
def scanTable (f : Nat → UInt8) : Nat → Nat → Except O5mError (ByteStr × Nat)
  | _, 0 => .error .readPastEnd
  | off, fuel + 1 =>
    if f off = 0 then .ok ([], off + 1)
    else do
      let (s, o) ← scanTable f (off + 1) fuel
      .ok (f off :: s, o)

/-- A base-128 varint read from the reference table's storage (the C++ calls
`protozero::decode_varint` with a pointer into `m_table`; the bounds check
against the payload's `end` never fires).  At most 10 bytes. -/
def tableVarintLoop (f : Nat → UInt8) : Nat → Nat → Nat → Nat → Except O5mError (Nat × Nat)
  | _, _, _, 0 => .error .varintTooLong
  | off, shift, acc, fuel + 1 =>
    let acc' := acc + (f off).toNat % 128 * 2 ^ shift
    if (f off).toNat < 128 then .ok (acc' % 2 ^ 64, off + 1)
    else tableVarintLoop f (off + 1) (shift + 7) acc' fuel

/-- A varint read from the reference table's storage. -/
def tableVarint (f : Nat → UInt8) (off : Nat) : Except O5mError (Nat × Nat) :=
  tableVarintLoop f off 0 0 10

/-- `std::numeric_limits<user_id_type>::max()` (`uint32_t`). -/
def uidMax : Nat := 4294967295

/-- `std::numeric_limits<object_version_type>::max()` (`uint32_t`). -/
def versionMax : Nat := 4294967295

/-- `O5mParser::decode_user`.  The string source is inline exactly when the
first byte is `0x00` (then `update_pointer` is true): the uid varint, a
separator byte, and the NUL-terminated user name are consumed from the
payload, the whole blob is interned, and the outer cursor is advanced.  For a
table reference the same fields are read from the table storage and the outer
cursor only skips the index varint.  A zero uid with `update_pointer` interns
the two-NUL sentinel and yields the anonymous user. -/
def decode_user (st : ParserState) (input : List UInt8) :
    Except O5mError ((Nat × ByteStr) × ParserState × List UInt8) :=
  match input with
  | [] => .error .assertFail
  | b :: rest =>
    if b = 0 then
      if rest = [] then .error .stringFormat
      else do
        let (uid, r₁) ← decode_varint rest
        if uidMax < uid then .error .uidOutOfRange
        else if r₁ = [] then .error .missingUserName
        else
          let r₂ := r₁.tail
          if uid = 0 then
            .ok ((0, []), { st with refTable := st.refTable.add [0, 0] }, r₂)
          else do
            let (name, r₃) ← scanFieldPre .noNullUserName r₂
            let stored := rest.take (rest.length - r₃.length)
            .ok ((uid, name), { st with refTable := st.refTable.add stored }, r₃)
    else do
      let (index, r₁) ← decode_varint input
      let off ← st.refTable.get index
      let (uid, off₁) ← tableVarint st.refTable.table off
      if uidMax < uid then .error .uidOutOfRange
      else do
        let (name, _) ← scanTable st.refTable.table (off₁ + 1) tableBytes
        .ok ((uid, name), st, r₁)

/-- `O5mParser::decode_info`.  A leading `0x00` means no metadata.  Otherwise
a version varint and a zig-zag timestamp delta; a zero accumulated timestamp
ends the section, else a zig-zag changeset delta follows and, unless the
payload is exhausted, a user block. -/
def decode_info (st : ParserState) (input : List UInt8) :
    Except O5mError (InfoRes × ParserState × List UInt8) :=
  match input with
  | [] => .error .prematureEndMetadata
  | b :: rest =>
    if b = 0 then .ok ({}, st, rest)
    else do
      let (version, r₁) ← decode_varint (b :: rest)
      if versionMax < version then .error .versionTooLarge
      else do
        let (dts, r₂) ← zvarint r₁
        let ts := deltaUpdate st.delta_timestamp dts
        let st₁ := { st with delta_timestamp := ts }
        if ts = 0 then .ok ({ version := version }, st₁, r₂)
        else do
          let (dcs, r₃) ← zvarint r₂
          let cs := deltaUpdate st₁.delta_changeset dcs
          let st₂ := { st₁ with delta_changeset := cs }
          if r₃ = [] then
            .ok ({ version := version, timestamp := ts, changeset := cs }, st₂, r₃)
          else do
            let (u, st₃, r₄) ← decode_user st₂ r₃
            .ok ({ version := version, timestamp := ts, changeset := cs,
                   uid := u.1, user := u.2 }, st₃, r₄)

/-- One iteration of `O5mParser::decode_tags` per fuel unit: decode a
double-NUL-terminated key/value blob (inline, interning it, or from the
table) and append the pair.  Each iteration consumes at least one input byte,
so `input.length + 1` fuel never runs out. -/
def decodeTagsLoop : Nat → ParserState → List UInt8 →
    Except O5mError (List (ByteStr × ByteStr) × ParserState)
  | 0, _, _ => .error .readPastEnd
  | _, st, [] => .ok ([], st)
  | fuel + 1, st, b :: rest =>
    if b = 0 then
      if rest = [] then .error .stringFormat
      else do
        let (key, r₁) ← scanField .noNullTagKey rest
        if r₁ = [] then .error .noNullTagValue
        else do
          let (value, r₂) ← scanField .noNullTagValue r₁
          let stored := rest.take (rest.length - r₂.length)
          let st₁ := { st with refTable := st.refTable.add stored }
          let (more, st₂) ← decodeTagsLoop fuel st₁ r₂
          .ok ((key, value) :: more, st₂)
    else do
      let (index, r₁) ← decode_varint (b :: rest)
      let off ← st.refTable.get index
      let (key, off₁) ← scanTable st.refTable.table off tableBytes
      let (value, _) ← scanTable st.refTable.table off₁ tableBytes
      let (more, st₂) ← decodeTagsLoop fuel st r₁
      .ok ((key, value) :: more, st₂)

/-- `O5mParser::decode_tags`. -/
def decode_tags (st : ParserState) (input : List UInt8) :
    Except O5mError (List (ByteStr × ByteStr) × ParserState) :=
  decodeTagsLoop (input.length + 1) st input

/-! ## Node, way and relation decoding -/

/-- `O5mParser::decode_node`.  Read the id delta; decode the metadata; if the
payload is exhausted the node is deleted (not visible, invalid location),
else two zig-zag deltas give the location and any remaining payload is the
tag list. -/
def decode_node (st : ParserState) (payload : List UInt8) :
    Except O5mError ParserState := do
  let (dId, r₁) ← zvarint payload
  let id := deltaUpdate st.delta_id dId
  let st₁ := { st with delta_id := id }
  let (info, st₂, r₂) ← decode_info st₁ r₁
  if r₂ = [] then
    .ok (st₂.pushEntity (.node ⟨id, info, false, none, []⟩))
  else do
    let (dLon, r₃) ← zvarint r₂
    let lon := deltaUpdate st₂.delta_lon dLon
    let (dLat, r₄) ← zvarint r₃
    let lat := deltaUpdate st₂.delta_lat dLat
    let st₃ := { st₂ with delta_lon := lon, delta_lat := lat }
    if r₄ = [] then
      .ok (st₃.pushEntity (.node ⟨id, info, true, some (lon, lat), []⟩))
    else do
      let (tags, st₄) ← decode_tags st₃ r₄
      .ok (st₄.pushEntity (.node ⟨id, info, true, some (lon, lat), tags⟩))

/-- The loop over a way's reference section: while fewer than `budget` bytes
of it are consumed (`data < end_refs`), read a zig-zag delta (bounded by the
payload's end, so the final varint may run past `end_refs`) through the
way-node `DeltaDecode`.  Each iteration consumes at least one byte, so
`budget + 1` fuel never runs out. -/
def decodeWayNodesLoop : Nat → ParserState → List UInt8 → Nat →
    Except O5mError (List Int × ParserState × List UInt8)
  | 0, _, _, _ => .error .readPastEnd
  | fuel + 1, st, l, budget =>
    if budget = 0 then .ok ([], st, l)
    else do
      let (d, r) ← zvarint l
      let v := deltaUpdate st.delta_way_node_id d
      let st₁ := { st with delta_way_node_id := v }
      let consumed := l.length - r.length
      let (more, st₂, rest) ← decodeWayNodesLoop fuel st₁ r (budget - consumed)
      .ok (v :: more, st₂, rest)

/-- `O5mParser::decode_way`. -/
def decode_way (st : ParserState) (payload : List UInt8) :
    Except O5mError ParserState := do
  let (dId, r₁) ← zvarint payload
  let id := deltaUpdate st.delta_id dId
  let st₁ := { st with delta_id := id }
  let (info, st₂, r₂) ← decode_info st₁ r₁
  if r₂ = [] then
    .ok (st₂.pushEntity (.way ⟨id, info, false, [], []⟩))
  else do
    let (refLen, r₃) ← decode_varint r₂
    if 0 < refLen ∧ r₃.length < refLen then .error .wayRefsTooLong
    else do
      let (refs, st₃, r₄) ←
        if 0 < refLen then decodeWayNodesLoop (refLen + 1) st₂ r₃ refLen
        else .ok ([], st₂, r₃)
      if r₄ = [] then
        .ok (st₃.pushEntity (.way ⟨id, info, true, refs, []⟩))
      else do
        let (tags, st₄) ← decode_tags st₃ r₄
        .ok (st₄.pushEntity (.way ⟨id, info, true, refs, tags⟩))

/-- `O5mParser::decode_member_type`: the character must be `'0'`, `'1'` or
`'2'`; the nwr index is its offset from `'0'`. -/
def decodeMemberType (c : UInt8) : Except O5mError Nat :=
  if c < 0x30 ∨ 0x32 < c then .error .unknownMemberType
  else .ok (c.toNat - 0x30)

/-- `O5mParser::decode_role`: a string source whose first byte is the member
type character followed by the NUL-terminated role. -/
def decode_role (st : ParserState) (input : List UInt8) :
    Except O5mError ((Nat × ByteStr) × ParserState × List UInt8) :=
  match input with
  | [] => .error .assertFail
  | b :: rest =>
    if b = 0 then
      match rest with
      | [] => .error .stringFormat
      | c :: r₀ => do
        let t ← decodeMemberType c
        if r₀ = [] then .error .missingRole
        else do
          let (role, r₁) ← scanField .noNullRole r₀
          let stored := rest.take (rest.length - r₁.length)
          .ok ((t, role), { st with refTable := st.refTable.add stored }, r₁)
    else do
      let (index, r₁) ← decode_varint input
      let off ← st.refTable.get index
      let t ← decodeMemberType (st.refTable.table off)
      let (role, _) ← scanTable st.refTable.table (off + 1) tableBytes
      .ok ((t, role), st, r₁)

/-- The loop over a relation's reference section: while fewer than `budget`
bytes are consumed, read a member id delta, require more payload, decode the
role, and route the delta through the member-type's `DeltaDecode`.  Each
iteration consumes at least two bytes. -/
def decodeRelMembersLoop : Nat → ParserState → List UInt8 → Nat →
    Except O5mError (List RelMember × ParserState × List UInt8)
  | 0, _, _, _ => .error .readPastEnd
  | fuel + 1, st, l, budget =>
    if budget = 0 then .ok ([], st, l)
    else do
      let (d, r) ← zvarint l
      if r = [] then .error .relationMemberFormat
      else do
        let ((t, role), st₁, r₂) ← decode_role st r
        let v := deltaUpdate (st₁.memberDelta t) d
        let st₂ := st₁.setMemberDelta t v
        let consumed := l.length - r₂.length
        let (more, st₃, rest) ← decodeRelMembersLoop fuel st₂ r₂ (budget - consumed)
        .ok (⟨t, v, role⟩ :: more, st₃, rest)

/-- `O5mParser::decode_relation`. -/
def decode_relation (st : ParserState) (payload : List UInt8) :
    Except O5mError ParserState := do
  let (dId, r₁) ← zvarint payload
  let id := deltaUpdate st.delta_id dId
  let st₁ := { st with delta_id := id }
  let (info, st₂, r₂) ← decode_info st₁ r₁
  if r₂ = [] then
    .ok (st₂.pushEntity (.relation ⟨id, info, false, [], []⟩))
  else do
    let (refLen, r₃) ← decode_varint r₂
    if 0 < refLen ∧ r₃.length < refLen then .error .relationFormat
    else do
      let (members, st₃, r₄) ←
        if 0 < refLen then decodeRelMembersLoop (refLen + 1) st₂ r₃ refLen
        else .ok ([], st₂, r₃)
      if r₄ = [] then
        .ok (st₃.pushEntity (.relation ⟨id, info, true, members, []⟩))
      else do
        let (tags, st₄) ← decode_tags st₃ r₄
        .ok (st₄.pushEntity (.relation ⟨id, info, true, members, tags⟩))

/-- `O5mParser::decode_bbox`: four zig-zag deltas into the pending header. -/
def decode_bbox (st : ParserState) (payload : List UInt8) :
    Except O5mError ParserState := do
  let (sw_lon, r₁) ← zvarint payload
  let (sw_lat, r₂) ← zvarint r₁
  let (ne_lon, r₃) ← zvarint r₂
  let (ne_lat, _) ← zvarint r₃
  .ok { st with header :=
    { st.header with bbox := some (sw_lon, sw_lat, ne_lon, ne_lat) } }

/-- `O5mParser::decode_timestamp`: one zig-zag delta into the pending header
(the C++ also converts it to an ISO string, which is not modelled). -/
def decode_timestamp (st : ParserState) (payload : List UInt8) :
    Except O5mError ParserState := do
  let (ts, _) ← zvarint payload
  .ok { st with header := { st.header with timestamp := some ts } }

/-! ## The dataset dispatcher -/

/-- The `switch (ds_type)` of `O5mParser::decode_data`, applied to the
payload of a length-carrying dataset: node (`0x10`), way (`0x11`) and
relation (`0x12`) publish the header and are decoded when their entity bit is
set in `read_types()`; bounding box (`0xDB`) and timestamp (`0xDC`) update
the pending header; every other type is ignored. -/
def dispatch (mask : EntityMask) (st : ParserState) (t : UInt8) (payload : List UInt8) :
    Except O5mError ParserState :=
  if t.toNat = 0x10 then
    if mask.nodes then decode_node st.markHeaderDone payload
    else .ok st.markHeaderDone
  else if t.toNat = 0x11 then
    if mask.ways then decode_way st.markHeaderDone payload
    else .ok st.markHeaderDone
  else if t.toNat = 0x12 then
    if mask.relations then decode_relation st.markHeaderDone payload
    else .ok st.markHeaderDone
  else if t.toNat = 0xDB then decode_bbox st payload
  else if t.toNat = 0xDC then decode_timestamp st payload
  else .ok st

/-- One iteration of the `O5mParser::decode_data` loop: process a single
dataset.  Types above `0xEF` carry no length field; `0xFF` resets the parser.
All other types carry a varint length followed by that many payload bytes,
handled by `dispatch`.  Returns the new state, the remaining input, and
whether the loop stops (empty input, or the early break when `read_types()`
is `nothing` and the header is published — in that case the payload is not
consumed). -/
def decode_dataset (mask : EntityMask) (st : ParserState) (input : List UInt8) :
    Except O5mError (ParserState × List UInt8 × Bool) :=
  match input with
  | [] => .ok (st, [], true)
  | t :: rest =>
    if 0xEF < t.toNat then
      if t = 0xFF then .ok (st.reset, rest, false) else .ok (st, rest, false)
    else do
      let (length, r₁) ← decode_varint rest
      if r₁.length < length then .error .prematureEnd
      else do
        let st' ← dispatch mask st t (r₁.take length)
        if mask = EntityMask.nothing ∧ st'.header_done = true then
          .ok (st', r₁, true)
        else
          .ok (st', r₁.drop length, false)

end O5m

namespace OsmiumBuffer

/-!
## osmium::memory::Buffer

The buffer is modelled by its observable numeric state (`capacity`,
`written`, `committed`), the validity of `m_data`, whether the memory is
internally managed (`m_memory`), and the growth policy.  Byte contents are
not tracked; for `purge_removed` the committed region's parse into items is
passed explicitly (the committed region of a well-formed buffer is a
concatenation of records whose padded sizes sum to `committed`).
`std::bad_alloc`, the deprecated full callback (never set here) and the
debug-only builder counter are not modelled; `assert`s on `m_data` become
`assertFail` errors.
-/

/-- `Buffer::auto_grow`. -/
inductive AutoGrow where
  | no
  | yes
  | internal
deriving DecidableEq, Repr

/-- Errors a buffer operation can raise (`std::invalid_argument`,
`std::logic_error`, `osmium::buffer_is_full`, or a violated assert). -/
inductive BufErr where
  | invalidArgument
  | logicError
  | bufferIsFull
  | assertFail
deriving DecidableEq, Repr

/-- The observable state of one `osmium::memory::Buffer`. -/
structure BufferState where
  valid : Bool
  internal : Bool
  capacity : Nat
  written : Nat
  committed : Nat
  autoGrow : AutoGrow
deriving DecidableEq, Repr

/-- Modelled from the spec: `align_bytes` (records are aligned to 8 bytes;
`osmium/memory/item.hpp` is not part of the sources). -/
def align_bytes : Nat := 8

/-- Modelled from the spec: `padded_length` rounds up to the alignment. -/
def padded_length (n : Nat) : Nat := (n + 7) / 8 * 8

/-- `Buffer::calculate_capacity`: at least 64 bytes, padded to alignment. -/
def calculate_capacity (c : Nat) : Nat :=
  if c < 64 then 64 else padded_length c

/-- The default constructor `Buffer()`: an invalid buffer. -/
def invalidBuffer : BufferState :=
  ⟨false, false, 0, 0, 0, .no⟩

/-- `Buffer(unsigned char*, size_t)`: externally managed, full. -/
def ofExternal (size : Nat) : Except BufErr BufferState :=
  if size % align_bytes ≠ 0 then .error .invalidArgument
  else .ok ⟨true, false, size, size, size, .no⟩

/-- `Buffer(unsigned char*, size_t, size_t)`: externally managed with given
capacity and committed bytes. -/
def ofExternalData (cap com : Nat) : Except BufErr BufferState :=
  if cap % align_bytes ≠ 0 then .error .invalidArgument
  else if com % align_bytes ≠ 0 then .error .invalidArgument
  else if cap < com then .error .invalidArgument
  else .ok ⟨true, false, cap, com, com, .no⟩

/-- `Buffer(std::unique_ptr<unsigned char[]>, size_t, size_t)`: internally
managed with given capacity and committed bytes (`auto_grow` defaults to
`no`). -/
def ofInternalData (cap com : Nat) : Except BufErr BufferState :=
  if cap % align_bytes ≠ 0 then .error .invalidArgument
  else if com % align_bytes ≠ 0 then .error .invalidArgument
  else if cap < com then .error .invalidArgument
  else .ok ⟨true, true, cap, com, com, .no⟩

/-- `Buffer(size_t, auto_grow)`: fresh internally managed storage of
`calculate_capacity` bytes. -/
def ofCapacity (cap : Nat) (ag : AutoGrow) : BufferState :=
  ⟨true, true, calculate_capacity cap, 0, 0, ag⟩

/-- `Buffer::commit`: promote the written bytes; returns the previous
committed offset. -/
def commit (s : BufferState) : BufferState × Nat :=
  ({ s with committed := s.written }, s.committed)

/-- `Buffer::rollback`: discard the uncommitted tail. -/
def rollback (s : BufferState) : BufferState :=
  { s with written := s.committed }

/-- `Buffer::clear`: zero `written` and `committed`, return the bytes that
were committed.  No `m_data` assert, so this is total (a no-op returning 0 on
an invalid buffer). -/
def clear (s : BufferState) : BufferState × Nat :=
  ({ s with written := 0, committed := 0 }, s.committed)

/-- `Buffer::operator bool`: a buffer is truthy iff `m_data` is non-null. -/
def toBool (s : BufferState) : Bool := s.valid

/-- `Buffer::grow`: only internally managed buffers; capacity becomes
`calculate_capacity size` if that is larger. -/
def grow (s : BufferState) (size : Nat) : Except BufErr BufferState :=
  if s.valid = false then .error .assertFail
  else if s.internal = false then .error .logicError
  else
    let sz := calculate_capacity size
    .ok (if s.capacity < sz then { s with capacity := sz } else s)

/-- `Buffer::grow_internal`: move the committed contents into a predecessor
buffer and keep only the uncommitted tail (constructing the predecessor with
the `unique_ptr` constructor re-checks the alignment invariants). -/
def grow_internal (s : BufferState) : Except BufErr BufferState :=
  if s.valid = false then .error .assertFail
  else if s.internal = false then .error .logicError
  else if s.capacity % align_bytes ≠ 0 ∨ s.committed % align_bytes ≠ 0 then
    .error .invalidArgument
  else if s.capacity < s.committed then .error .invalidArgument
  else .ok { s with written := s.written - s.committed, committed := 0 }

/-- The predecessor buffer created by `grow_internal`
(`Buffer{std::move(m_memory), m_capacity, m_committed}`). -/
def predState (s : BufferState) : BufferState :=
  ⟨true, true, s.capacity, s.committed, s.committed, .no⟩

/-- A buffer that was moved from: `m_data`, sizes zeroed, memory gone. -/
def movedFrom (s : BufferState) : BufferState :=
  ⟨false, false, 0, 0, 0, s.autoGrow⟩

/-- The doubling loop of `Buffer::reserve_space`
(`new_capacity = m_capacity * 2; while (need > new_capacity) new_capacity *= 2;`),
with structural fuel (the C++ loop terminates because the capacity of every
auto-growing buffer is positive). -/
def doubleLoop : Nat → Nat → Nat → Nat
  | 0, n, _ => n
  | fuel + 1, n, need => if need ≤ n then n else doubleLoop fuel (n * 2) need

/-- `Buffer::reserve_space` (no full callback is ever set): if the request
does not fit, a non-growable buffer throws `buffer_is_full`; with
`auto_grow::internal` and committed contents the buffer chains first; if the
request still does not fit the capacity is doubled until it does and `grow`
is called.  Returns the new state and the offset of the reserved space. -/
def reserve_space (s : BufferState) (n : Nat) : Except BufErr (BufferState × Nat) :=
  if s.valid = false then .error .assertFail
  else if s.capacity < s.written + n then
    if s.internal = false ∨ s.autoGrow = .no then .error .bufferIsFull
    else
      (if s.autoGrow = .internal ∧ s.committed ≠ 0 then grow_internal s
       else .ok s) >>= fun s₁ =>
      (if s₁.capacity < s₁.written + n then
        grow s₁ (doubleLoop (s₁.written + n) (s₁.capacity * 2) (s₁.written + n))
       else .ok s₁) >>= fun s₂ =>
      .ok ({ s₂ with written := s₂.written + n }, s₂.written)
  else .ok ({ s with written := s.written + n }, s.written)

/-- `Buffer::add_item`: reserve the item's padded size and copy it (the copy
is not visible in the numeric state). -/
def add_item (s : BufferState) (itemPaddedSize : Nat) : Except BufErr (BufferState × Nat) :=
  reserve_space s itemPaddedSize

/-- One record of the committed region as `purge_removed` walks it: its
padded size and its tombstone bit. -/
structure Item where
  size : Nat
  removed : Bool
deriving DecidableEq, Repr

/-- Total padded size of a record list. -/
def sumSizes (l : List Item) : Nat := (l.map Item.size).sum

/-- The walk of `Buffer::purge_removed`: `r` is the read offset
(`it_read.data() - data()`), `w` the write offset.  A surviving record whose
offsets differ triggers the callback with `(old, new)` and is moved; the
write cursor advances by its padded size.  Returns the callback invocations
in order and the final write offset. -/
def purgeLoop : List Item → Nat → Nat → List (Nat × Nat) × Nat
  | [], _, w => ([], w)
  | it :: rest, r, w =>
    if it.removed then purgeLoop rest (r + it.size) w
    else
      (if r = w then (purgeLoop rest (r + it.size) (w + it.size)).1
       else (r, w) :: (purgeLoop rest (r + it.size) (w + it.size)).1,
       (purgeLoop rest (r + it.size) (w + it.size)).2)

/-- `Buffer::purge_removed`: nothing happens when the committed region is
empty (`begin() == end()`); otherwise the committed records (`items`, the
parse of the committed region) are compacted and
`written = committed = new end`.  Returns the callback invocations. -/
def purge_removed (s : BufferState) (items : List Item) :
    BufferState × List (Nat × Nat) :=
  if s.committed = 0 then (s, [])
  else
    ({ s with written := (purgeLoop items 0 0).2, committed := (purgeLoop items 0 0).2 },
     (purgeLoop items 0 0).1)

/-- The old and new offsets of every surviving (non-removed) record, in
order, as laid out by `purge_removed`. -/
def survivorOffsets : List Item → Nat → Nat → List (Nat × Nat)
  | [], _, _ => []
  | it :: rest, r, w =>
    if it.removed then survivorOffsets rest (r + it.size) w
    else (r, w) :: survivorOffsets rest (r + it.size) (w + it.size)

/-- Running partial sums of a list of sizes, starting at `acc`. -/
def partialSums : List Nat → Nat → List Nat
  | [], _ => []
  | n :: rest, acc => acc :: partialSums rest (acc + n)

/-- The states reachable through the buffer's public operations
(constructors, `reserve_space`, `commit`, `rollback`, `clear`, `grow`,
chaining growth's predecessor, `purge_removed`, `add_item`, move).
Operations whose C++ preconditions (`@pre` asserts) demand a valid buffer
carry that hypothesis. -/
inductive Reachable : BufferState → Prop where
  | invalid : Reachable invalidBuffer
  | external {size s} : ofExternal size = .ok s → Reachable s
  | externalData {cap com s} : ofExternalData cap com = .ok s → Reachable s
  | internalData {cap com s} : ofInternalData cap com = .ok s → Reachable s
  | ofCap (cap : Nat) (ag : AutoGrow) : Reachable (ofCapacity cap ag)
  | reserve {s n s' off} : Reachable s → reserve_space s n = .ok (s', off) →
      Reachable s'
  | commitStep {s} : Reachable s → s.valid = true → Reachable (commit s).1
  | rollbackStep {s} : Reachable s → s.valid = true → Reachable (rollback s)
  | clearStep {s} : Reachable s → Reachable (clear s).1
  | growStep {s sz s'} : Reachable s → grow s sz = .ok s' → Reachable s'
  | purgeStep {s items} : Reachable s → s.valid = true →
      sumSizes items = s.committed → Reachable (purge_removed s items).1
  | addItemStep {s n s' off} : Reachable s → add_item s n = .ok (s', off) →
      Reachable s'
  | moveStep {s} : Reachable s → Reachable (movedFrom s)
  | predStep {s} : Reachable s → s.internal = true → Reachable (predState s)

end OsmiumBuffer

/-! # Theorems -/

namespace OsmiumBuffer

/-- C10: a default-constructed (invalid) `Buffer` reports
`capacity() = committed() = written() = 0`, converts to `false` in a bool
context, and `clear()` on it is a no-op that changes no state and returns 0.
All four operations are modelled as total functions, mirroring the C++
(none of them asserts on `m_data`; `clear` only asserts on the debug-only
builder counter, which is 0). -/
theorem invalid_buffer_total_ops :
    invalidBuffer.capacity = 0 ∧ invalidBuffer.committed = 0 ∧
    invalidBuffer.written = 0 ∧ toBool invalidBuffer = false ∧
    clear invalidBuffer = (invalidBuffer, 0) :=
  ⟨rfl, rfl, rfl, rfl, rfl⟩

/-- Helper: `sumSizes` on a cons. -/
theorem sumSizes_cons (it : Item) (l : List Item) :
    sumSizes (it :: l) = it.size + sumSizes l := by
  simp [sumSizes]

/-- Helper: the purge walk skips a removed record. -/
theorem purgeLoop_cons_removed {it : Item} {rest : List Item} {r w : Nat}
    (h : it.removed = true) :
    purgeLoop (it :: rest) r w = purgeLoop rest (r + it.size) w := by
  rw [purgeLoop, if_pos h]

/-- Helper: the purge walk keeps a surviving record. -/
theorem purgeLoop_cons_kept {it : Item} {rest : List Item} {r w : Nat}
    (h : it.removed = false) :
    purgeLoop (it :: rest) r w =
      (if r = w then (purgeLoop rest (r + it.size) (w + it.size)).1
       else (r, w) :: (purgeLoop rest (r + it.size) (w + it.size)).1,
       (purgeLoop rest (r + it.size) (w + it.size)).2) := by
  rw [purgeLoop, if_neg (by rw [h]; exact Bool.false_ne_true)]

/-- Helper: `survivorOffsets` on a removed record. -/
theorem survivorOffsets_cons_removed {it : Item} {rest : List Item} {r w : Nat}
    (h : it.removed = true) :
    survivorOffsets (it :: rest) r w = survivorOffsets rest (r + it.size) w := by
  rw [survivorOffsets, if_pos h]

/-- Helper: `survivorOffsets` on a surviving record. -/
theorem survivorOffsets_cons_kept {it : Item} {rest : List Item} {r w : Nat}
    (h : it.removed = false) :
    survivorOffsets (it :: rest) r w =
      (r, w) :: survivorOffsets rest (r + it.size) (w + it.size) := by
  rw [survivorOffsets, if_neg (by rw [h]; exact Bool.false_ne_true)]

/-- Helper: the survivor filter drops a removed record. -/
theorem filter_cons_removed {it : Item} {rest : List Item} (h : it.removed = true) :
    ((it :: rest).filter fun x => !x.removed) = rest.filter fun x => !x.removed := by
  rw [List.filter_cons]
  simp [h]

/-- Helper: the survivor filter keeps a non-removed record. -/
theorem filter_cons_kept {it : Item} {rest : List Item} (h : it.removed = false) :
    ((it :: rest).filter fun x => !x.removed) =
      it :: rest.filter fun x => !x.removed := by
  rw [List.filter_cons]
  simp [h]

/-- Helper: the final write offset of the purge walk is the start offset plus
the total padded size of the surviving records. -/
theorem purgeLoop_final (items : List Item) :
    ∀ r w, (purgeLoop items r w).2 =
      w + sumSizes (items.filter fun it => !it.removed) := by
  induction items with
  | nil =>
    intro r w
    simp [purgeLoop, sumSizes]
  | cons it rest ih =>
    intro r w
    cases hrem : it.removed with
    | true => rw [purgeLoop_cons_removed hrem, filter_cons_removed hrem, ih]
    | false =>
      rw [purgeLoop_cons_kept hrem, filter_cons_kept hrem, sumSizes_cons]
      dsimp only
      rw [ih]
      omega

/-- Helper: the padded sizes of the survivors are at most the total. -/
theorem sumSizes_filter_le (items : List Item) :
    sumSizes (items.filter fun it => !it.removed) ≤ sumSizes items := by
  induction items with
  | nil => exact Nat.le_refl 0
  | cons it rest ih =>
    cases hrem : it.removed with
    | true =>
      rw [filter_cons_removed hrem, sumSizes_cons]
      omega
    | false =>
      rw [filter_cons_kept hrem, sumSizes_cons, sumSizes_cons]
      omega

/-- Helper: every callback of the purge walk reports `new ≤ old` (the
invariant is `w ≤ r`). -/
theorem purgeLoop_cbs_le (items : List Item) :
    ∀ r w, w ≤ r → ∀ p ∈ (purgeLoop items r w).1, p.2 ≤ p.1 := by
  induction items with
  | nil =>
    intro r w _ p hp
    simp [purgeLoop] at hp
  | cons it rest ih =>
    intro r w hwr p hp
    cases hrem : it.removed with
    | true =>
      rw [purgeLoop_cons_removed hrem] at hp
      exact ih (r + it.size) w (by omega) p hp
    | false =>
      rw [purgeLoop_cons_kept hrem] at hp
      dsimp only at hp
      by_cases hrw : r = w
      · rw [if_pos hrw] at hp
        exact ih (r + it.size) (w + it.size) (by omega) p hp
      · rw [if_neg hrw, List.mem_cons] at hp
        rcases hp with hp | hp
        · subst hp; simpa using hwr
        · exact ih (r + it.size) (w + it.size) (by omega) p hp

/-- Helper: the callbacks are exactly the surviving records whose offsets
moved. -/
theorem purgeLoop_cbs_eq (items : List Item) :
    ∀ r w, (purgeLoop items r w).1 =
      (survivorOffsets items r w).filter fun p => p.1 != p.2 := by
  induction items with
  | nil => intro r w; simp [purgeLoop, survivorOffsets]
  | cons it rest ih =>
    intro r w
    cases hrem : it.removed with
    | true =>
      rw [purgeLoop_cons_removed hrem, survivorOffsets_cons_removed hrem, ih]
    | false =>
      rw [purgeLoop_cons_kept hrem, survivorOffsets_cons_kept hrem]
      dsimp only
      by_cases hrw : r = w
      · subst hrw
        rw [if_pos rfl, ih, List.filter_cons]
        simp
      · rw [if_neg hrw, ih, List.filter_cons, if_pos (by simpa [bne_iff_ne] using hrw)]

/-- Helper: the survivor offsets dominate their start offsets. -/
theorem survivorOffsets_ge (items : List Item) :
    ∀ r w, ∀ p ∈ survivorOffsets items r w, r ≤ p.1 ∧ w ≤ p.2 := by
  induction items with
  | nil => intro r w p hp; simp [survivorOffsets] at hp
  | cons it rest ih =>
    intro r w p hp
    cases hrem : it.removed with
    | true =>
      rw [survivorOffsets_cons_removed hrem] at hp
      have := ih (r + it.size) w p hp
      omega
    | false =>
      rw [survivorOffsets_cons_kept hrem, List.mem_cons] at hp
      rcases hp with hp | hp
      · subst hp; exact ⟨Nat.le_refl r, Nat.le_refl w⟩
      · have := ih (r + it.size) (w + it.size) p hp
        omega

/-- Helper: old and new survivor offsets are both monotone along the walk. -/
theorem survivorOffsets_chain (items : List Item) :
    ∀ r w, List.Chain' (fun a b : Nat × Nat => a.1 ≤ b.1 ∧ a.2 ≤ b.2)
      (survivorOffsets items r w) := by
  induction items with
  | nil => intro r w; simp [survivorOffsets]
  | cons it rest ih =>
    intro r w
    cases hrem : it.removed with
    | true =>
      rw [survivorOffsets_cons_removed hrem]
      exact ih (r + it.size) w
    | false =>
      rw [survivorOffsets_cons_kept hrem]
      refine List.chain'_cons'.mpr ⟨?_, ih (r + it.size) (w + it.size)⟩
      intro q hq
      have hge := survivorOffsets_ge rest (r + it.size) (w + it.size) q
        (List.mem_of_mem_head? hq)
      dsimp only
      omega

/-- Helper: the new offsets are the partial sums of the surviving sizes. -/
theorem survivorOffsets_snd (items : List Item) :
    ∀ r w, (survivorOffsets items r w).map Prod.snd =
      partialSums ((items.filter fun it => !it.removed).map Item.size) w := by
  induction items with
  | nil => intro r w; simp [survivorOffsets, partialSums]
  | cons it rest ih =>
    intro r w
    cases hrem : it.removed with
    | true =>
      rw [survivorOffsets_cons_removed hrem, filter_cons_removed hrem, ih]
    | false =>
      rw [survivorOffsets_cons_kept hrem, filter_cons_kept hrem]
      simp only [List.map_cons, partialSums]
      rw [ih]

/-- The inductive invariant behind C7: `committed ≤ written ≤ capacity`, and
an auto-growing internally managed buffer has capacity at least 64 (its only
constructor goes through `calculate_capacity`). -/
def BufInv (s : BufferState) : Prop :=
  s.committed ≤ s.written ∧ s.written ≤ s.capacity ∧
    (s.internal = true → s.autoGrow ≠ .no → 64 ≤ s.capacity)

/-- Helper: `calculate_capacity` never shrinks. -/
theorem calculate_capacity_ge (n : Nat) : n ≤ calculate_capacity n := by
  unfold calculate_capacity padded_length
  split_ifs with h
  · omega
  · omega

/-- Helper: `calculate_capacity` is at least the minimum capacity. -/
theorem calculate_capacity_ge64 (n : Nat) : 64 ≤ calculate_capacity n := by
  unfold calculate_capacity padded_length
  split_ifs with h
  · omega
  · omega

/-- Helper: the doubling loop reaches the needed size when it starts
positive and has enough fuel. -/
theorem doubleLoop_ge (fuel : Nat) : ∀ n need, 1 ≤ n → need ≤ fuel + n →
    need ≤ doubleLoop fuel n need := by
  induction fuel with
  | zero =>
    intro n need h1 h2
    simpa [doubleLoop] using h2
  | succ fuel ih =>
    intro n need h1 h2
    rw [doubleLoop]
    by_cases hle : need ≤ n
    · rwa [if_pos hle]
    · rw [if_neg hle]
      exact ih (n * 2) need (by omega) (by omega)

/-- Helper: on success, `grow_internal` only moves the committed prefix out. -/
theorem grow_internal_fields {s s₁ : BufferState} (h : grow_internal s = .ok s₁) :
    s₁ = { s with written := s.written - s.committed, committed := 0 } := by
  unfold grow_internal at h
  split_ifs at h
  · exact (Except.ok.inj h).symm

/-- Helper: on success, `grow` only (possibly) enlarges the capacity. -/
theorem grow_fields {s : BufferState} {sz : Nat} {s' : BufferState}
    (h : grow s sz = .ok s') :
    s.capacity ≤ s'.capacity ∧ calculate_capacity sz ≤ s'.capacity ∧
    s'.written = s.written ∧ s'.committed = s.committed ∧
    s'.internal = s.internal ∧ s'.autoGrow = s.autoGrow ∧ s'.valid = s.valid := by
  unfold grow at h
  split_ifs at h with h1 h2
  obtain rfl := Except.ok.inj h
  by_cases h3 : s.capacity < calculate_capacity sz
  · rw [if_pos h3]
    refine ⟨?_, ?_, rfl, rfl, rfl, rfl, rfl⟩ <;> dsimp only <;> omega
  · rw [if_neg h3]
    refine ⟨?_, ?_, rfl, rfl, rfl, rfl, rfl⟩ <;> omega

/-- Helper: `reserve_space` preserves the invariant. -/
theorem reserve_space_inv {s : BufferState} {n : Nat} {s' : BufferState}
    {off : Nat} (hs : BufInv s) (h : reserve_space s n = .ok (s', off)) :
    BufInv s' := by
  obtain ⟨hcw, hwc, h64⟩ := hs
  unfold reserve_space at h
  by_cases hv : s.valid = false
  · rw [if_pos hv] at h
    cases h
  · rw [if_neg hv] at h
    by_cases hc : s.capacity < s.written + n
    · rw [if_pos hc] at h
      by_cases hng : s.internal = false ∨ s.autoGrow = .no
      · rw [if_pos hng] at h
        cases h
      · rw [if_neg hng] at h
        push_neg at hng
        obtain ⟨hint, hagn⟩ := hng
        have hint' : s.internal = true := by
          cases hi : s.internal
          · exact absurd hi hint
          · rfl
        have h64' : 64 ≤ s.capacity := h64 hint' hagn
        -- the chaining step
        cases hgi : (if s.autoGrow = .internal ∧ s.committed ≠ 0 then
            grow_internal s else .ok s) with
        | error e =>
          rw [hgi, O5m.bindErr] at h
          cases h
        | ok s₁ =>
          rw [hgi, O5m.bindOk] at h
          have hs₁ : s₁.committed ≤ s₁.written ∧ s₁.written ≤ s₁.capacity ∧
              s₁.capacity = s.capacity ∧ s₁.written ≤ s.written ∧
              s₁.internal = s.internal ∧ s₁.autoGrow = s.autoGrow := by
            by_cases hint2 : s.autoGrow = .internal ∧ s.committed ≠ 0
            · rw [if_pos hint2] at hgi
              obtain rfl := grow_internal_fields hgi
              refine ⟨?_, ?_, rfl, ?_, rfl, rfl⟩ <;> dsimp only <;> omega
            · rw [if_neg hint2] at hgi
              obtain rfl := Except.ok.inj hgi
              exact ⟨hcw, hwc, rfl, Nat.le_refl _, rfl, rfl⟩
          obtain ⟨h1cw, h1wc, h1cap, h1w, h1int, h1ag⟩ := hs₁
          -- the doubling step
          cases hg2 : (if s₁.capacity < s₁.written + n then
              grow s₁ (doubleLoop (s₁.written + n) (s₁.capacity * 2) (s₁.written + n))
            else .ok s₁) with
          | error e =>
            rw [hg2, O5m.bindErr] at h
            cases h
          | ok s₂ =>
            rw [hg2, O5m.bindOk] at h
            have hs₂ : s₂.committed ≤ s₂.written ∧ s₂.written + n ≤ s₂.capacity ∧
                s₂.internal = s.internal ∧ s₂.autoGrow = s.autoGrow ∧
                s.capacity ≤ s₂.capacity := by
              by_cases hc2 : s₁.capacity < s₁.written + n
              · rw [if_pos hc2] at hg2
                obtain ⟨hg1, hg2', hg3, hg4, hg5, hg6, hg7⟩ := grow_fields hg2
                have hdl : s₁.written + n ≤
                    doubleLoop (s₁.written + n) (s₁.capacity * 2) (s₁.written + n) :=
                  doubleLoop_ge _ _ _ (by omega) (by omega)
                have := calculate_capacity_ge
                  (doubleLoop (s₁.written + n) (s₁.capacity * 2) (s₁.written + n))
                exact ⟨by omega, by omega, by rw [hg5, h1int], by rw [hg6, h1ag],
                  by omega⟩
              · rw [if_neg hc2] at hg2
                obtain rfl := Except.ok.inj hg2
                exact ⟨h1cw, by omega, h1int, h1ag, by omega⟩
            obtain ⟨h2cw, h2wc, h2int, h2ag, h2cap⟩ := hs₂
            simp only [Except.ok.injEq, Prod.mk.injEq] at h
            obtain ⟨hs', hoff⟩ := h
            subst hs'
            refine ⟨?_, ?_, ?_⟩
            · dsimp only
              omega
            · dsimp only
              omega
            · intro _ _
              dsimp only
              omega
    · rw [if_neg hc] at h
      simp only [Except.ok.injEq, Prod.mk.injEq] at h
      obtain ⟨hs', hoff⟩ := h
      subst hs'
      refine ⟨?_, ?_, ?_⟩
      · dsimp only
        omega
      · dsimp only
        omega
      · intro hi ha
        dsimp only at hi ha ⊢
        exact h64 hi ha

/-- Helper: every reachable buffer satisfies the inductive invariant. -/
theorem reachable_inv {s : BufferState} (h : Reachable s) : BufInv s := by
  induction h with
  | invalid =>
    exact ⟨Nat.le_refl 0, Nat.le_refl 0, fun hi _ => by cases hi⟩
  | external hx =>
    unfold ofExternal at hx
    split_ifs at hx
    obtain rfl := Except.ok.inj hx
    exact ⟨Nat.le_refl _, Nat.le_refl _, fun hi _ => by cases hi⟩
  | externalData hx =>
    unfold ofExternalData at hx
    split_ifs at hx with h1 h2 h3
    obtain rfl := Except.ok.inj hx
    exact ⟨Nat.le_refl _, by simpa using Nat.le_of_not_lt h3, fun hi _ => by cases hi⟩
  | internalData hx =>
    unfold ofInternalData at hx
    split_ifs at hx with h1 h2 h3
    obtain rfl := Except.ok.inj hx
    exact ⟨Nat.le_refl _, by simpa using Nat.le_of_not_lt h3,
      fun _ ha => absurd rfl ha⟩
  | ofCap cap ag =>
    exact ⟨Nat.le_refl 0, Nat.zero_le _, fun _ _ => calculate_capacity_ge64 cap⟩
  | reserve _ hr ih => exact reserve_space_inv ih hr
  | commitStep _ _ ih =>
    obtain ⟨h1, h2, h3⟩ := ih
    exact ⟨Nat.le_refl _, h2, h3⟩
  | rollbackStep _ _ ih =>
    obtain ⟨h1, h2, h3⟩ := ih
    exact ⟨Nat.le_refl _, by simp [rollback]; omega, h3⟩
  | clearStep _ ih =>
    obtain ⟨h1, h2, h3⟩ := ih
    exact ⟨Nat.le_refl 0, Nat.zero_le _, h3⟩
  | growStep _ hg ih =>
    obtain ⟨h1, h2, h3⟩ := ih
    obtain ⟨hg1, hg2, hg3, hg4, hg5, hg6, hg7⟩ := grow_fields hg
    refine ⟨by omega, by omega, ?_⟩
    intro hi ha
    rw [hg5] at hi
    rw [hg6] at ha
    exact le_trans (h3 hi ha) hg1
  | purgeStep hreach hvalid hsum ih =>
    obtain ⟨h1, h2, h3⟩ := ih
    unfold purge_removed
    split_ifs with hc
    · exact ⟨h1, h2, h3⟩
    · have hfin := purgeLoop_final ‹List Item› 0 0
      have hle := sumSizes_filter_le ‹List Item›
      refine ⟨Nat.le_refl _, ?_, h3⟩
      simp only
      omega
  | addItemStep _ ha ih => exact reserve_space_inv ih ha
  | moveStep _ ih =>
    exact ⟨Nat.le_refl 0, Nat.le_refl 0, fun hi _ => by cases hi⟩
  | predStep _ _ ih =>
    obtain ⟨h1, h2, h3⟩ := ih
    exact ⟨Nat.le_refl _, by simp [predState]; omega, fun _ h => absurd rfl h⟩

/-- C7: every buffer state reachable through the public operations
(construction, `reserve_space`, `commit`, `rollback`, `clear`, `grow`,
internal chaining growth, `purge_removed`, `add_item`, move) satisfies
`written ≥ committed` and `committed ≤ capacity`. -/
theorem buffer_state_invariant (s : BufferState) (h : Reachable s) :
    s.committed ≤ s.written ∧ s.committed ≤ s.capacity :=
  have hi := reachable_inv h
  ⟨hi.1, le_trans hi.1 hi.2.1⟩

/-- Witness for C7 at a concrete reachable buffer. -/
theorem buffer_state_invariant_witness :
    (ofCapacity 100 .yes).committed ≤ (ofCapacity 100 .yes).written ∧
    (ofCapacity 100 .yes).committed ≤ (ofCapacity 100 .yes).capacity :=
  buffer_state_invariant (ofCapacity 100 .yes) (Reachable.ofCap 100 .yes)

/-- Helper: the doubling loop returns the least multiple `n * 2 ^ k` that
reaches `need`, given positive start and enough fuel. -/
theorem doubleLoop_min (fuel : Nat) : ∀ n need, 1 ≤ n → need ≤ fuel + n →
    ∃ k, doubleLoop fuel n need = n * 2 ^ k ∧ need ≤ n * 2 ^ k ∧
      ∀ i < k, n * 2 ^ i < need := by
  induction fuel with
  | zero =>
    intro n need h1 h2
    refine ⟨0, by simp [doubleLoop], by simpa using h2, by omega⟩
  | succ fuel ih =>
    intro n need h1 h2
    rw [doubleLoop]
    by_cases hle : need ≤ n
    · refine ⟨0, by rw [if_pos hle]; ring, by simpa using hle, by omega⟩
    · rw [if_neg hle]
      obtain ⟨k, hk1, hk2, hk3⟩ := ih (n * 2) need (by omega) (by omega)
      refine ⟨k + 1, by rw [hk1]; ring, by calc
        need ≤ n * 2 * 2 ^ k := hk2
        _ = n * 2 ^ (k + 1) := by ring, ?_⟩
      intro i hi
      cases i with
      | zero =>
        simpa using Nat.lt_of_not_le hle
      | succ j =>
        calc n * 2 ^ (j + 1) = n * 2 * 2 ^ j := by ring
          _ < need := hk3 j (by omega)

/-- A buffer reachable as `Buffer(96, auto_grow::yes)` followed by
`reserve_space(96)`: capacity 96 (a multiple of the 8-byte alignment but not
a power of two), fully written, nothing committed. -/
def buf96Full : BufferState := ⟨true, true, 96, 96, 0, .yes⟩

/-- C8 counterexample: the claim says that when `reserve_space(n)` on a
plain auto-growing buffer overflows, the capacity is reallocated to the
smallest power of two at least `written + n`.  On `buf96Full` with `n = 8`
the required size is 104 and the smallest power of two at least 104 is
`128 = 2 ^ 7`, but the code doubles the current (non-power-of-two) capacity
96 and lands on 192. -/
theorem reserve_space_pow2_counterexample :
    Reachable buf96Full ∧
    reserve_space buf96Full 8 = .ok (⟨true, true, 192, 104, 0, .yes⟩, 96) ∧
    96 + 8 ≤ 128 ∧ (128 : Nat) = 2 ^ 7 ∧ (128 : Nat) < 192 := by
  refine ⟨?_, rfl, by decide, by decide, by decide⟩
  exact Reachable.reserve (Reachable.ofCap 96 .yes)
    (rfl : reserve_space (ofCapacity 96 .yes) 96 = .ok (buf96Full, 0))

/-- C8 (amended): whenever `reserve_space(n)` is called on an internally
managed buffer with the plain grow-in-place policy (`auto_grow::yes`) and
`written + n` exceeds the current capacity, the buffer is reallocated to the
smallest doubling `capacity * 2 ^ k` (k ≥ 1) of the current capacity that
reaches `written + n` (a power of two only when the capacity already was
one), the existing bytes are copied (the contents and `committed` are
unchanged), and `written` is then advanced by `n`.  The hypotheses
`64 ≤ capacity` and `capacity % 8 = 0` hold for every internally managed
auto-growing buffer (see `reachable_inv`). -/
theorem reserve_space_grow_doubles (s : BufferState) (n : Nat)
    (hv : s.valid = true) (hi : s.internal = true) (hag : s.autoGrow = .yes)
    (hcap : 64 ≤ s.capacity) (hal : s.capacity % 8 = 0)
    (hover : s.capacity < s.written + n) :
    ∃ k, 1 ≤ k ∧
      reserve_space s n =
        .ok ({ s with capacity := s.capacity * 2 ^ k, written := s.written + n },
          s.written) ∧
      s.written + n ≤ s.capacity * 2 ^ k ∧
      ∀ j, 1 ≤ j → j < k → s.capacity * 2 ^ j < s.written + n := by
  obtain ⟨k₀, hk1, hk2, hk3⟩ :=
    doubleLoop_min (s.written + n) (s.capacity * 2) (s.written + n)
      (by omega) (by omega)
  have htarget : doubleLoop (s.written + n) (s.capacity * 2) (s.written + n) =
      s.capacity * 2 ^ (k₀ + 1) := by
    rw [hk1]; ring
  have hpow : s.capacity * 2 ^ (k₀ + 1) % 8 = 0 := by
    obtain ⟨m, hm⟩ := Nat.dvd_of_mod_eq_zero hal
    rw [hm]
    have hred : 8 * m * 2 ^ (k₀ + 1) = 8 * (m * 2 ^ (k₀ + 1)) := by ring
    rw [hred]
    exact Nat.mul_mod_right 8 _
  have heq2 : s.capacity * 2 * 2 ^ k₀ = s.capacity * 2 ^ (k₀ + 1) := by ring
  have hge : s.capacity ≤ s.capacity * 2 ^ (k₀ + 1) := by
    have h1 : 1 ≤ 2 ^ (k₀ + 1) := Nat.one_le_two_pow
    calc s.capacity = s.capacity * 1 := (Nat.mul_one _).symm
      _ ≤ s.capacity * 2 ^ (k₀ + 1) := Nat.mul_le_mul (Nat.le_refl _) h1
  have hcc : calculate_capacity (s.capacity * 2 ^ (k₀ + 1)) =
      s.capacity * 2 ^ (k₀ + 1) := by
    unfold calculate_capacity padded_length
    rw [if_neg (by omega)]
    omega
  have hlt : s.capacity < s.capacity * 2 ^ (k₀ + 1) := by omega
  have hgrow : grow s (s.capacity * 2 ^ (k₀ + 1)) =
      .ok { s with capacity := s.capacity * 2 ^ (k₀ + 1) } := by
    unfold grow
    rw [if_neg (by simp [hv]), if_neg (by simp [hi])]
    dsimp only
    rw [hcc, if_pos hlt]
  refine ⟨k₀ + 1, by omega, ?_, by omega, ?_⟩
  · unfold reserve_space
    rw [if_neg (by simp [hv]), if_pos hover, if_neg (by simp [hi, hag]),
      if_neg (by simp [hag]), O5m.bindOk, if_pos hover, htarget, hgrow,
      O5m.bindOk]
  · intro j hj1 hj2
    obtain ⟨j', rfl⟩ : ∃ j', j = j' + 1 := ⟨j - 1, by omega⟩
    have heq3 : s.capacity * 2 * 2 ^ j' = s.capacity * 2 ^ (j' + 1) := by ring
    have hlt := hk3 j' (by omega)
    omega

/-- Witness for C8 at the concrete buffer `buf96Full` (capacity 96, written
96) with an 8-byte reservation. -/
theorem reserve_space_grow_doubles_witness :
    buf96Full.valid = true ∧ buf96Full.internal = true ∧
    buf96Full.autoGrow = .yes ∧ 64 ≤ buf96Full.capacity ∧
    buf96Full.capacity % 8 = 0 ∧ buf96Full.capacity < buf96Full.written + 8 ∧
    ∃ k, 1 ≤ k ∧
      reserve_space buf96Full 8 =
        .ok ({ buf96Full with capacity := buf96Full.capacity * 2 ^ k, written := buf96Full.written + 8 }, buf96Full.written) ∧
      buf96Full.written + 8 ≤ buf96Full.capacity * 2 ^ k ∧
      ∀ j, 1 ≤ j → j < k → buf96Full.capacity * 2 ^ j < buf96Full.written + 8 :=
  ⟨rfl, rfl, rfl, by decide, by decide, by decide,
    reserve_space_grow_doubles buf96Full 8 rfl rfl rfl (by decide) (by decide)
      (by decide)⟩

/-- C9 counterexample: the claim says that on completion of `purge_removed`,
`written` equals `committed`.  But when the committed region is empty
(`begin() == end()`), the function returns before touching `m_written`, so a
buffer with 16 uncommitted bytes (reachable by `Buffer(64, auto_grow::yes)`
followed by `reserve_space(16)`) keeps `written = 16 ≠ 0 = committed`. -/
theorem purge_removed_counterexample :
    Reachable ⟨true, true, 64, 16, 0, .yes⟩ ∧
    sumSizes [] = (0 : Nat) ∧
    (purge_removed ⟨true, true, 64, 16, 0, .yes⟩ []).1.written = 16 ∧
    (purge_removed ⟨true, true, 64, 16, 0, .yes⟩ []).1.committed = 0 ∧
    (purge_removed ⟨true, true, 64, 16, 0, .yes⟩ []).1.written ≠
      (purge_removed ⟨true, true, 64, 16, 0, .yes⟩ []).1.committed := by
  refine ⟨?_, rfl, rfl, rfl, by decide⟩
  exact Reachable.reserve (Reachable.ofCap 64 .yes)
    (rfl : reserve_space (ofCapacity 64 .yes) 16 = .ok (⟨true, true, 64, 16, 0, .yes⟩, 0))

/-- C9 (amended): for every buffer whose nonempty committed region parses as
the record list `items`, `purge_removed` preserves the relative order of the
non-removed records (the i-th survivor, in original order, lands at the i-th
partial sum of the surviving padded sizes); their new offsets are monotone in
their old offsets; every callback invocation reports a new offset at most the
old offset; and on completion `written = committed =` the sum of the padded
sizes of the surviving records.  (When the committed region is empty the
function returns immediately and changes nothing.) -/
theorem purge_removed_spec (s : BufferState) (items : List Item)
    (hsum : sumSizes items = s.committed) (hne : s.committed ≠ 0) :
    (purge_removed s items).1.written = (purge_removed s items).1.committed ∧
    (purge_removed s items).1.committed =
      sumSizes (items.filter fun it => !it.removed) ∧
    (∀ p ∈ (purge_removed s items).2, p.2 ≤ p.1) ∧
    (purge_removed s items).2 =
      ((survivorOffsets items 0 0).filter fun p => p.1 != p.2) ∧
    List.Chain' (fun a b : Nat × Nat => a.1 ≤ b.1 ∧ a.2 ≤ b.2)
      (survivorOffsets items 0 0) ∧
    (survivorOffsets items 0 0).map Prod.snd =
      partialSums ((items.filter fun it => !it.removed).map Item.size) 0 := by
  unfold purge_removed
  rw [if_neg hne]
  refine ⟨rfl, ?_, ?_, ?_, survivorOffsets_chain items 0 0,
    survivorOffsets_snd items 0 0⟩
  · simpa using purgeLoop_final items 0 0
  · exact purgeLoop_cbs_le items 0 0 (le_refl 0)
  · exact purgeLoop_cbs_eq items 0 0

/-- Witness for C9 at a concrete two-record buffer (first record removed):
the survivor moves from offset 8 to offset 0. -/
theorem purge_removed_spec_witness :
    sumSizes [⟨8, true⟩, ⟨16, false⟩] = (24 : Nat) ∧ (24 : Nat) ≠ 0 ∧
    ((purge_removed ⟨true, true, 64, 24, 24, .yes⟩ [⟨8, true⟩, ⟨16, false⟩]).1.written =
      (purge_removed ⟨true, true, 64, 24, 24, .yes⟩ [⟨8, true⟩, ⟨16, false⟩]).1.committed ∧
    (purge_removed ⟨true, true, 64, 24, 24, .yes⟩ [⟨8, true⟩, ⟨16, false⟩]).1.committed =
      sumSizes ([⟨8, true⟩, ⟨16, false⟩].filter fun it => !it.removed) ∧
    (∀ p ∈ (purge_removed ⟨true, true, 64, 24, 24, .yes⟩ [⟨8, true⟩, ⟨16, false⟩]).2,
      p.2 ≤ p.1) ∧
    (purge_removed ⟨true, true, 64, 24, 24, .yes⟩ [⟨8, true⟩, ⟨16, false⟩]).2 =
      ((survivorOffsets [⟨8, true⟩, ⟨16, false⟩] 0 0).filter fun p => p.1 != p.2) ∧
    List.Chain' (fun a b : Nat × Nat => a.1 ≤ b.1 ∧ a.2 ≤ b.2)
      (survivorOffsets [⟨8, true⟩, ⟨16, false⟩] 0 0) ∧
    (survivorOffsets [⟨8, true⟩, ⟨16, false⟩] 0 0).map Prod.snd =
      partialSums (([⟨8, true⟩, ⟨16, false⟩].filter fun it => !it.removed).map Item.size) 0) :=
  ⟨rfl, by decide,
    purge_removed_spec ⟨true, true, 64, 24, 24, .yes⟩ [⟨8, true⟩, ⟨16, false⟩]
      rfl (by decide)⟩

end OsmiumBuffer

namespace O5m

/-- Helper: the error case of `ReferenceTable::get`. -/
theorem get_error_of (t : ReferenceTable) (index : Nat)
    (h : t.allocated = false ∨ index = 0 ∨ 15000 < index) :
    t.get index = .error .refNonExisting := by
  rw [ReferenceTable.get, if_pos]
  exact h

/-- Helper: the success case of `ReferenceTable::get`. -/
theorem get_ok_of (t : ReferenceTable) (index : Nat) (ha : t.allocated = true)
    (h1 : 1 ≤ index) (h2 : index ≤ 15000) :
    t.get index = .ok (((t.current_entry + 15000 - index) % 15000) * 256) := by
  rw [ReferenceTable.get, if_neg]
  · rfl
  · rintro (h | h | h)
    · simp [ha] at h
    · omega
    · simp only [tableEntries] at h; omega

/-- C3: for every `ReferenceTable` state, `get(index)` raises a decode error
if the table is empty (its backing storage was never allocated) or
`index = 0` or `index > 15000`, and otherwise returns (a pointer to) the
bytes stored at slot `(current + 15000 - index) % 15000`. -/
theorem referenceTable_get_spec (t : ReferenceTable) (index : Nat) :
    ((t.allocated = false ∨ index = 0 ∨ 15000 < index) →
      t.get index = .error .refNonExisting) ∧
    (t.allocated = true → 1 ≤ index → index ≤ 15000 →
      t.get index = .ok (((t.current_entry + 15000 - index) % 15000) * 256)) :=
  ⟨get_error_of t index, get_ok_of t index⟩

/-- Witness for C3 at a concrete table: after one insertion the table is
allocated and `get 1` yields the slot at `(1 + 15000 - 1) % 15000 = 0`. -/
theorem referenceTable_get_spec_witness :
    (ReferenceTable.fresh.add [0x61, 0]).allocated = true ∧
    (ReferenceTable.fresh.add [0x61, 0]).get 1 =
      .ok ((((ReferenceTable.fresh.add [0x61, 0]).current_entry + 15000 - 1) % 15000) * 256) :=
  ⟨rfl, (referenceTable_get_spec _ 1).2 rfl (by decide) (by decide)⟩

/-- C2: header decoding succeeds exactly when the first seven input bytes
are `FF E0 04 'o' '5'`, one byte in `{'m', 'c'}`, then `'2'`; any other
prefix (including fewer than seven bytes) raises a fatal error; `'c'` sets
`has_multiple_object_versions` and `'m'` clears it. -/
theorem decode_header_spec (input : List UInt8) :
    ((∃ h rest, decode_header input = .ok (h, rest)) ↔
      (∃ b5 rest, input = 0xff :: 0xe0 :: 0x04 :: 0x6f :: 0x35 :: b5 :: 0x32 :: rest ∧
        (b5 = 0x6d ∨ b5 = 0x63))) ∧
    (∀ rest, decode_header (0xff :: 0xe0 :: 0x04 :: 0x6f :: 0x35 :: 0x6d :: 0x32 :: rest) =
      .ok ({ has_multiple_object_versions := false }, rest)) ∧
    (∀ rest, decode_header (0xff :: 0xe0 :: 0x04 :: 0x6f :: 0x35 :: 0x63 :: 0x32 :: rest) =
      .ok ({ has_multiple_object_versions := true }, rest)) ∧
    ((¬ ∃ b5 rest, input = 0xff :: 0xe0 :: 0x04 :: 0x6f :: 0x35 :: b5 :: 0x32 :: rest ∧
        (b5 = 0x6d ∨ b5 = 0x63)) → ∃ e, decode_header input = .error e) := by
  have main : (∃ h rest, decode_header input = .ok (h, rest)) ↔
      (∃ b5 rest, input = 0xff :: 0xe0 :: 0x04 :: 0x6f :: 0x35 :: b5 :: 0x32 :: rest ∧
        (b5 = 0x6d ∨ b5 = 0x63)) := by
    rcases input with _ | ⟨b0, _ | ⟨b1, _ | ⟨b2, _ | ⟨b3, _ | ⟨b4, _ | ⟨b5, _ | ⟨b6, rest⟩⟩⟩⟩⟩⟩⟩
    case cons.cons.cons.cons.cons.cons.cons =>
      simp only [decode_header]
      split_ifs with h1 h2 h3 h4 h5
      · constructor
        · intro _
          exact ⟨b5, rest, by simp_all, Or.inl h2⟩
        · intro _
          exact ⟨_, rest, rfl⟩
      · constructor
        · rintro ⟨h, r, hok⟩
          simp at hok
        · rintro ⟨c, r, heq, hb⟩
          simp_all
      · constructor
        · intro _
          exact ⟨b5, rest, by simp_all, Or.inr h4⟩
        · intro _
          exact ⟨_, rest, rfl⟩
      · constructor
        · rintro ⟨h, r, hok⟩
          simp at hok
        · rintro ⟨c, r, heq, hb⟩
          simp_all
      · constructor
        · rintro ⟨h, r, hok⟩
          simp at hok
        · rintro ⟨c, r, heq, hb⟩
          simp_all
      · constructor
        · rintro ⟨h, r, hok⟩
          simp at hok
        · rintro ⟨c, r, heq, hb⟩
          simp_all
    all_goals
      constructor
      · rintro ⟨h, r, hok⟩
        simp [decode_header.eq_def] at hok
      · rintro ⟨c, r, heq, _⟩
        simp at heq
  refine ⟨main, fun rest => rfl, fun rest => rfl, fun hno => ?_⟩
  cases hok : decode_header input with
  | error e => exact ⟨e, rfl⟩
  | ok p => exact absurd (main.mp ⟨p.1, p.2, by rw [hok]⟩) hno

/-- Witness for C2: the change-file header `FF E0 04 'o' '5' 'c' '2'` decodes
with `has_multiple_object_versions = true`. -/
theorem decode_header_spec_witness :
    decode_header [0xff, 0xe0, 0x04, 0x6f, 0x35, 0x63, 0x32] =
      .ok ({ has_multiple_object_versions := true }, []) :=
  (decode_header_spec [0xff, 0xe0, 0x04, 0x6f, 0x35, 0x63, 0x32]).2.2.1 []

/-- A parser state whose reference table has seen one insertion. -/
def stOneAdd : ParserState :=
  { initState with refTable := ReferenceTable.fresh.add [0x61, 0] }

/-- C5 counterexample: the claim says that after a reset dataset the next
`get` on the reference table errors regardless of prior history.  But
`ReferenceTable::clear` only zeroes the cursor and leaves the backing
storage allocated, so after one prior insertion a reset dataset is processed
and `get 1` succeeds (returning the stale slot `14999`). -/
theorem reset_get_no_error_counterexample :
    decode_dataset EntityMask.all stOneAdd [0xFF] =
      .ok (stOneAdd.reset, [], false) ∧
    stOneAdd.reset.refTable.get 1 = .ok (14999 * 256) := by
  constructor
  · rfl
  · rfl

/-- C5 (amended): immediately after the decoder processes a reset dataset
(type byte `0xFF`), every `DeltaDecode` reads 0 and the reference table
cursor is zeroed; the next `get` errors when no string was ever added to the
table (backing storage unallocated), while after a prior insertion `get` on
a valid index (1..15000) succeeds and returns the stale slot
`(15000 - index) % 15000` without error. -/
theorem reset_dataset_spec (mask : EntityMask) (st : ParserState) (rest : List UInt8) :
    decode_dataset mask st (0xFF :: rest) = .ok (st.reset, rest, false) ∧
    st.reset.delta_id = 0 ∧ st.reset.delta_timestamp = 0 ∧
    st.reset.delta_changeset = 0 ∧ st.reset.delta_lon = 0 ∧
    st.reset.delta_lat = 0 ∧ st.reset.delta_way_node_id = 0 ∧
    st.reset.delta_member_id0 = 0 ∧ st.reset.delta_member_id1 = 0 ∧
    st.reset.delta_member_id2 = 0 ∧
    st.reset.refTable.current_entry = 0 ∧
    (st.refTable.allocated = false →
      ∀ index, st.reset.refTable.get index = .error .refNonExisting) ∧
    (st.refTable.allocated = true → ∀ index, 1 ≤ index → index ≤ 15000 →
      st.reset.refTable.get index = .ok (((15000 - index) % 15000) * 256)) := by
  refine ⟨rfl, rfl, rfl, rfl, rfl, rfl, rfl, rfl, rfl, rfl, rfl, ?_, ?_⟩
  · intro hna index
    exact get_error_of _ index (Or.inl hna)
  · intro ha index h1 h2
    exact get_ok_of _ index ha h1 h2

/-- Witness for C5: a concrete reset on a fresh parser; the unallocated
table makes `get 1` error after the reset. -/
theorem reset_dataset_spec_witness :
    decode_dataset EntityMask.all initState (0xFF :: [0x10]) =
      .ok (initState.reset, [0x10], false) ∧
    initState.refTable.allocated = false ∧
    initState.reset.refTable.get 1 = .error .refNonExisting :=
  ⟨(reset_dataset_spec EntityMask.all initState [0x10]).1, rfl,
    (reset_dataset_spec EntityMask.all initState [0x10]).2.2.2.2.2.2.2.2.2.2.2.1 rfl 1⟩

/-- Helper: the final `if` of a `decode_data` iteration never takes the
early-break branch when the entity mask is not `nothing`. -/
theorem decode_data_tail {mask : EntityMask} {stN : ParserState}
    {r₁ : List UInt8} {len : Nat} {st' : ParserState} {rem : List UInt8}
    {stopped : Bool} (hmask : mask ≠ EntityMask.nothing)
    (h : (if mask = EntityMask.nothing ∧ stN.header_done = true then
            Except.ok (stN, r₁, true)
          else Except.ok (stN, r₁.drop len, false)) =
        (Except.ok (st', rem, stopped) : Except O5mError _)) :
    st' = stN ∧ rem = r₁.drop len ∧ stopped = false := by
  rw [if_neg (fun hc => hmask hc.1)] at h
  simp only [Except.ok.injEq, Prod.mk.injEq] at h
  exact ⟨h.1.symm, h.2.1.symm, h.2.2.symm⟩

/-- C1: for every dataset in the body of a well-formed stream: a type byte
above `0xEF` consumes no length field (`0xFF` resets all `DeltaDecode`s and
the `ReferenceTable` cursor, every other such byte is ignored with no
payload); a type byte at most `0xEF` makes the decoder read a uvarint length
and then consume exactly that many payload bytes, dispatching node (`0x10`),
way (`0x11`), relation (`0x12`), bounding box (`0xDB`) and timestamp
(`0xDC`) payloads to their decoders and skipping the payload of every other
type with the state unchanged. -/
theorem decode_dataset_dispatch (mask : EntityMask) (st : ParserState)
    (t : UInt8) (rest : List UInt8) (hmask : mask ≠ EntityMask.nothing) :
    (0xEF < t.toNat → t ≠ 0xFF →
      decode_dataset mask st (t :: rest) = .ok (st, rest, false)) ∧
    (t = 0xFF →
      decode_dataset mask st (t :: rest) = .ok (st.reset, rest, false)) ∧
    (t.toNat ≤ 0xEF →
      ∀ st' rem stopped,
        decode_dataset mask st (t :: rest) = .ok (st', rem, stopped) →
        ∃ len r₁, decode_varint rest = .ok (len, r₁) ∧ len ≤ r₁.length ∧
          rem = r₁.drop len ∧ stopped = false ∧
          dispatch mask st t (r₁.take len) = .ok st') ∧
    (∀ payload, t.toNat = 0x10 →
      (mask.nodes = true →
        dispatch mask st t payload = decode_node st.markHeaderDone payload) ∧
      (mask.nodes = false → dispatch mask st t payload = .ok st.markHeaderDone)) ∧
    (∀ payload, t.toNat = 0x11 →
      (mask.ways = true →
        dispatch mask st t payload = decode_way st.markHeaderDone payload) ∧
      (mask.ways = false → dispatch mask st t payload = .ok st.markHeaderDone)) ∧
    (∀ payload, t.toNat = 0x12 →
      (mask.relations = true →
        dispatch mask st t payload = decode_relation st.markHeaderDone payload) ∧
      (mask.relations = false → dispatch mask st t payload = .ok st.markHeaderDone)) ∧
    (∀ payload, t.toNat = 0xDB → dispatch mask st t payload = decode_bbox st payload) ∧
    (∀ payload, t.toNat = 0xDC → dispatch mask st t payload = decode_timestamp st payload) ∧
    (∀ payload, t.toNat ≠ 0x10 → t.toNat ≠ 0x11 → t.toNat ≠ 0x12 →
      t.toNat ≠ 0xDB → t.toNat ≠ 0xDC → dispatch mask st t payload = .ok st) := by
  refine ⟨?_, ?_, ?_, ?_, ?_, ?_, ?_, ?_, ?_⟩
  · intro h1 h2
    show (if 0xEF < t.toNat then _ else _) = _
    rw [if_pos h1, if_neg h2]
  · intro h
    subst h
    rfl
  · intro hle st' rem stopped hok
    rw [show decode_dataset mask st (t :: rest) =
        (if 0xEF < t.toNat then
          if t = 0xFF then Except.ok (st.reset, rest, false)
          else Except.ok (st, rest, false)
        else do
          let (length, r₁) ← decode_varint rest
          if r₁.length < length then Except.error O5mError.prematureEnd
          else do
            let st' ← dispatch mask st t (r₁.take length)
            if mask = EntityMask.nothing ∧ st'.header_done = true then
              Except.ok (st', r₁, true)
            else Except.ok (st', r₁.drop length, false)) from rfl] at hok
    rw [if_neg (Nat.not_lt.mpr hle)] at hok
    cases hv : decode_varint rest with
    | error e =>
      rw [hv, bindErr] at hok
      cases hok
    | ok p =>
      obtain ⟨len, r₁⟩ := p
      rw [hv, bindOk] at hok
      dsimp only at hok
      by_cases hlen : r₁.length < len
      · rw [if_pos hlen] at hok
        cases hok
      · rw [if_neg hlen] at hok
        cases hd : dispatch mask st t (r₁.take len) with
        | error e =>
          rw [hd, bindErr] at hok
          cases hok
        | ok stN =>
          rw [hd, bindOk] at hok
          obtain ⟨h1, h2, h3⟩ := decode_data_tail hmask hok
          exact ⟨len, r₁, rfl, Nat.not_lt.mp hlen, h2, h3, h1 ▸ hd⟩
  · intro payload h10
    constructor
    · intro hn
      rw [dispatch, if_pos h10, if_pos hn]
    · intro hn
      rw [dispatch, if_pos h10, if_neg (by simp [hn])]
  · intro payload h11
    constructor
    · intro hw
      rw [dispatch, if_neg (by omega), if_pos h11, if_pos hw]
    · intro hw
      rw [dispatch, if_neg (by omega), if_pos h11, if_neg (by simp [hw])]
  · intro payload h12
    constructor
    · intro hr
      rw [dispatch, if_neg (by omega), if_neg (by omega), if_pos h12, if_pos hr]
    · intro hr
      rw [dispatch, if_neg (by omega), if_neg (by omega), if_pos h12,
        if_neg (by simp [hr])]
  · intro payload hdb
    rw [dispatch, if_neg (by omega), if_neg (by omega), if_neg (by omega), if_pos hdb]
  · intro payload hdc
    rw [dispatch, if_neg (by omega), if_neg (by omega), if_neg (by omega),
      if_neg (by omega), if_pos hdc]
  · intro payload hn1 hn2 hn3 hn4 hn5
    rw [dispatch, if_neg hn1, if_neg hn2, if_neg hn3, if_neg hn4, if_neg hn5]

/-- C6: for every node dataset whose payload is exhausted immediately after
the id delta and the metadata section, the decoded node has
`visible = false`, an invalid location and an empty tag list; otherwise two
zig-zag deltas are read into `(lon, lat)` through the lon/lat
`DeltaDecode`s and any remaining payload is decoded as a tag list. -/
theorem decode_node_spec (st : ParserState) (payload r₁ r₂ : List UInt8)
    (dId : Int) (info : InfoRes) (st₂ : ParserState)
    (h1 : zvarint payload = .ok (dId, r₁))
    (h2 : decode_info { st with delta_id := deltaUpdate st.delta_id dId } r₁ =
      .ok (info, st₂, r₂)) :
    (r₂ = [] →
      decode_node st payload =
        .ok (st₂.pushEntity
          (.node ⟨deltaUpdate st.delta_id dId, info, false, none, []⟩))) ∧
    (∀ dLon r₃ dLat r₄, zvarint r₂ = .ok (dLon, r₃) → zvarint r₃ = .ok (dLat, r₄) →
      (r₄ = [] →
        decode_node st payload =
          .ok (({ st₂ with
              delta_lon := deltaUpdate st₂.delta_lon dLon
              delta_lat := deltaUpdate st₂.delta_lat dLat }).pushEntity
            (.node ⟨deltaUpdate st.delta_id dId, info, true,
              some (deltaUpdate st₂.delta_lon dLon, deltaUpdate st₂.delta_lat dLat),
              []⟩))) ∧
      (∀ tags st₄,
        decode_tags { st₂ with
            delta_lon := deltaUpdate st₂.delta_lon dLon
            delta_lat := deltaUpdate st₂.delta_lat dLat } r₄ = .ok (tags, st₄) →
        decode_node st payload =
          .ok (st₄.pushEntity
            (.node ⟨deltaUpdate st.delta_id dId, info, true,
              some (deltaUpdate st₂.delta_lon dLon, deltaUpdate st₂.delta_lat dLat),
              tags⟩)))) := by
  constructor
  · intro hr2
    simp only [decode_node]
    rw [h1, bindOk]
    dsimp only
    rw [h2, bindOk]
    dsimp only
    rw [if_pos hr2]
  · intro dLon r₃ dLat r₄ hz1 hz2
    have hr2 : r₂ ≠ [] := by
      intro h
      subst h
      cases hz1
    constructor
    · intro hr4
      simp only [decode_node]
      rw [h1, bindOk]
      dsimp only
      rw [h2, bindOk]
      dsimp only
      rw [if_neg hr2, hz1, bindOk]
      dsimp only
      rw [hz2, bindOk]
      dsimp only
      rw [if_pos hr4]
    · intro tags st₄ htags
      simp only [decode_node]
      rw [h1, bindOk]
      dsimp only
      rw [h2, bindOk]
      dsimp only
      rw [if_neg hr2, hz1, bindOk]
      dsimp only
      rw [hz2, bindOk]
      dsimp only
      by_cases hr4 : r₄ = []
      · subst hr4
        rw [show decode_tags { st₂ with
            delta_lon := deltaUpdate st₂.delta_lon dLon
            delta_lat := deltaUpdate st₂.delta_lat dLat } [] =
          .ok ([], { st₂ with
            delta_lon := deltaUpdate st₂.delta_lon dLon
            delta_lat := deltaUpdate st₂.delta_lat dLat }) from rfl] at htags
        simp only [Except.ok.injEq, Prod.mk.injEq] at htags
        obtain ⟨ht, hs⟩ := htags
        rw [if_pos rfl, ← ht, ← hs]
      · rw [if_neg hr4, htags, bindOk]

/-- Witness for C6 at the concrete deleted-node payload `02 00` (id delta 1,
then no metadata, payload exhausted). -/
theorem decode_node_spec_witness :
    zvarint [0x02, 0x00] = .ok (1, [0x00]) ∧
    decode_info { initState with delta_id := deltaUpdate initState.delta_id 1 } [0x00] =
      .ok ({}, { initState with delta_id := deltaUpdate initState.delta_id 1 }, []) ∧
    decode_node initState [0x02, 0x00] =
      .ok (({ initState with delta_id := deltaUpdate initState.delta_id 1 }).pushEntity
        (.node ⟨deltaUpdate initState.delta_id 1, {}, false, none, []⟩)) :=
  ⟨rfl, rfl,
    (decode_node_spec initState [0x02, 0x00] [0x00] [] 1 {}
      { initState with delta_id := deltaUpdate initState.delta_id 1 } rfl rfl).1 rfl⟩

/-- Witness for C1: a marker-range byte `0xF0` on a fresh parser is ignored
without consuming a length field. -/
theorem decode_dataset_dispatch_witness :
    EntityMask.all ≠ EntityMask.nothing ∧
    decode_dataset EntityMask.all initState ((0xF0 : UInt8) :: [0x07]) =
      .ok (initState, [0x07], false) :=
  ⟨by decide,
    (decode_dataset_dispatch EntityMask.all initState 0xF0 [0x07] (by decide)).1
      (by decide) (by decide)⟩

/-! ## Reference table FIFO behaviour (C4) -/

/-- Helper: `writeBytes` leaves bytes outside the written range unchanged. -/
theorem writeBytes_outside (s : List UInt8) :
    ∀ f off i, (i < off ∨ off + s.length ≤ i) → writeBytes f off s i = f i := by
  induction s with
  | nil => intro f off i _; rfl
  | cons b bs ih =>
    intro f off i h
    have h' : i < off + 1 ∨ (off + 1) + bs.length ≤ i := by
      rcases h with h | h
      · exact Or.inl (by omega)
      · simp only [List.length_cons] at h
        exact Or.inr (by omega)
    have hne : ¬ i = off := by
      rcases h with h | h
      · omega
      · simp only [List.length_cons] at h
        omega
    rw [writeBytes, ih _ (off + 1) i h']
    exact if_neg hne

/-- Helper: `writeBytes` stores the string's bytes at the written range. -/
theorem writeBytes_inside (s : List UInt8) :
    ∀ f off j, j < s.length → writeBytes f off s (off + j) = s.getD j 0 := by
  induction s with
  | nil => intro f off j h; simp at h
  | cons b bs ih =>
    intro f off j h
    rw [writeBytes]
    cases j with
    | zero =>
      rw [writeBytes_outside bs _ (off + 1) (off + 0) (Or.inl (by omega))]
      simp
    | succ j' =>
      have harith : off + (j' + 1) = (off + 1) + j' := by omega
      rw [harith, ih _ (off + 1) j' (by simpa using h)]
      simp [List.getD_cons_succ]

/-- Helper: `addAll` on a cons. -/
theorem addAll_cons (t : ReferenceTable) (s : List UInt8) (rest : List (List UInt8)) :
    addAll t (s :: rest) = addAll (t.add s) rest := rfl

/-- Helper: `addAll` on an append. -/
theorem addAll_append (t : ReferenceTable) (l₁ l₂ : List (List UInt8)) :
    addAll t (l₁ ++ l₂) = addAll (addAll t l₁) l₂ := by
  simp [addAll, List.foldl_append]

/-- Helper: `add` of a short (interning-eligible) string, explicitly. -/
theorem add_short (t : ReferenceTable) (s : List UInt8) (h : s.length ≤ 252) :
    t.add s = ⟨true, writeBytes t.table (t.current_entry * 256) s,
      if t.current_entry + 1 = 15000 then 0 else t.current_entry + 1⟩ := by
  simp only [ReferenceTable.add, maxStrLength, tableEntries, entrySize]
  rw [if_pos h]

/-- Helper: `add` always allocates the backing storage. -/
theorem add_allocated (t : ReferenceTable) (s : List UInt8) :
    (t.add s).allocated = true := by
  unfold ReferenceTable.add
  split_ifs <;> rfl

/-- Helper: `addAll` keeps the storage allocated. -/
theorem addAll_preserves_allocated (l : List (List UInt8)) :
    ∀ t : ReferenceTable, t.allocated = true → (addAll t l).allocated = true := by
  induction l with
  | nil => intro t ht; exact ht
  | cons s rest ih =>
    intro t ht
    rw [addAll_cons]
    exact ih _ (add_allocated t s)

/-- Helper: the cursor after a short `add`. -/
theorem add_current (t : ReferenceTable) (s : List UInt8) (h : s.length ≤ 252)
    (hc : t.current_entry < 15000) :
    (t.add s).current_entry = (t.current_entry + 1) % 15000 := by
  rw [add_short t s h]
  dsimp only
  split_ifs with h1
  · omega
  · omega

/-- Helper: the cursor advances by the number of (short) strings added,
mod 15000. -/
theorem addAll_current (l : List (List UInt8)) :
    ∀ t : ReferenceTable, (∀ s ∈ l, s.length ≤ 252) → t.current_entry < 15000 →
      (addAll t l).current_entry = (t.current_entry + l.length) % 15000 := by
  induction l with
  | nil =>
    intro t _ hc
    simp only [addAll, List.foldl_nil, List.length_nil, Nat.add_zero]
    omega
  | cons s rest ih =>
    intro t hlen hc
    rw [addAll_cons, ih (t.add s) (fun x hx => hlen x (List.mem_cons_of_mem s hx))
      (by rw [add_current t s (hlen s (List.mem_cons_self s rest)) hc]; omega)]
    rw [add_current t s (hlen s (List.mem_cons_self s rest)) hc]
    simp only [List.length_cons]
    omega

/-- Helper: `addAll` leaves a slot's bytes unchanged when none of the writes
lands on it. -/
theorem addAll_table_preserved (l : List (List UInt8)) :
    ∀ (t : ReferenceTable) (p i : Nat), (∀ s ∈ l, s.length ≤ 252) →
      t.current_entry < 15000 → p < 15000 →
      (∀ j < l.length, (t.current_entry + j) % 15000 ≠ p) → i < 256 →
      (addAll t l).table (p * 256 + i) = t.table (p * 256 + i) := by
  induction l with
  | nil => intro t p i _ _ _ _ _; rfl
  | cons s rest ih =>
    intro t p i hlen hc hp hslots hi
    have hslen := hlen s (List.mem_cons_self s rest)
    have hcur' : (t.add s).current_entry = (t.current_entry + 1) % 15000 :=
      add_current t s hslen hc
    rw [addAll_cons, ih (t.add s) p i
      (fun x hx => hlen x (List.mem_cons_of_mem s hx))
      (by rw [hcur']; omega) hp ?slots hi]
    case slots =>
      intro j hj
      have hnext := hslots (j + 1) (by simp only [List.length_cons]; omega)
      rw [hcur']
      intro hcontra
      apply hnext
      omega
    · rw [add_short t s hslen]
      dsimp only
      apply writeBytes_outside
      have hne := hslots 0 (by simp only [List.length_cons]; omega)
      rw [Nat.add_zero, Nat.mod_eq_of_lt hc] at hne
      omega

/-- C4 counterexample: the claim says that after `N` insertions, `get(k)`
raises an error for every `k > min(N, 15000)`.  But after a single insertion
into a fresh table the whole backing storage is allocated, so `get 2`
returns the (never written) slot 14999 without error. -/
theorem refTable_get_stale_counterexample :
    ([(0x61 : UInt8), 0x00].length ≤ 252) ∧ min 1 15000 < 2 ∧
    (addAll ReferenceTable.fresh [[0x61, 0x00]]).get 2 = .ok (14999 * 256) :=
  ⟨by decide, by decide, rfl⟩

/-- C4 (amended): for every sequence of `N` insertions of strings of length
at most 252 bytes into a cleared (fresh) `ReferenceTable`, `get(k)`
immediately after the Nth insertion returns the `(N-k+1)`-th inserted string
for every `1 ≤ k ≤ min(N, 15000)`; `get` errors for `k = 0` and for
`k > 15000`; but for `min(N, 15000) < k ≤ 15000` (possible only when
`N < 15000`) `get` succeeds without error once anything was inserted,
returning a slot that was never written in the current cycle. -/
theorem refTable_fifo (l : List (List UInt8)) (k : Nat)
    (hlen : ∀ s ∈ l, s.length ≤ 252) :
    (1 ≤ k → k ≤ min l.length 15000 →
      ∃ off, (addAll ReferenceTable.fresh l).get k = .ok off ∧
        ∀ j < (l.getD (l.length - k) []).length,
          (addAll ReferenceTable.fresh l).table (off + j) =
            (l.getD (l.length - k) []).getD j 0) ∧
    (k = 0 ∨ 15000 < k →
      (addAll ReferenceTable.fresh l).get k = .error .refNonExisting) ∧
    (1 ≤ l.length → min l.length 15000 < k → k ≤ 15000 →
      ∃ off, (addAll ReferenceTable.fresh l).get k = .ok off) := by
  have halloc : 1 ≤ l.length → (addAll ReferenceTable.fresh l).allocated = true := by
    intro hN
    match l, hN with
    | s :: rest, _ =>
      rw [addAll_cons]
      exact addAll_preserves_allocated rest _ (add_allocated _ s)
  refine ⟨?_, ?_, ?_⟩
  · intro hk1 hk2
    have hkN : k ≤ l.length := le_trans hk2 (Nat.min_le_left _ _)
    have hk15 : k ≤ 15000 := le_trans hk2 (Nat.min_le_right _ _)
    have hmN : l.length - k < l.length := by omega
    have hdrop := List.drop_eq_getElem_cons hmN
    have hsplit : l = l.take (l.length - k) ++
        l[l.length - k] :: l.drop (l.length - k + 1) := by
      rw [← hdrop, List.take_append_drop]
    have htgt : l.getD (l.length - k) [] = l[l.length - k] :=
      List.getD_eq_getElem l [] hmN
    have hmem : l[l.length - k] ∈ l := List.getElem_mem hmN
    have htlen : (l[l.length - k] : List UInt8).length ≤ 252 := hlen _ hmem
    have hlen₁ : ∀ s ∈ l.take (l.length - k), s.length ≤ 252 :=
      fun s hs => hlen s (List.mem_of_mem_take hs)
    have hlen₂ : ∀ s ∈ l.drop (l.length - k + 1), s.length ≤ 252 :=
      fun s hs => hlen s (List.mem_of_mem_drop hs)
    have hlen₁l : (l.take (l.length - k)).length = l.length - k :=
      List.length_take_of_le (by omega)
    have hlen₂l : (l.drop (l.length - k + 1)).length = k - 1 := by
      rw [List.length_drop]
      omega
    -- the state after the first `N - k` insertions
    have hcur₁ : (addAll ReferenceTable.fresh (l.take (l.length - k))).current_entry =
        (l.length - k) % 15000 := by
      rw [addAll_current _ _ hlen₁ (by decide), hlen₁l]
      simp [ReferenceTable.fresh]
    -- the state right after the target insertion
    have hcur₂ : ((addAll ReferenceTable.fresh (l.take (l.length - k))).add
        l[l.length - k]).current_entry = ((l.length - k) + 1) % 15000 := by
      rw [add_current _ _ htlen (by rw [hcur₁]; omega), hcur₁]
      omega
    -- the final cursor
    have hcurT : (addAll ReferenceTable.fresh l).current_entry = l.length % 15000 := by
      rw [addAll_current _ _ hlen (by decide)]
      simp [ReferenceTable.fresh]
    have hget := get_ok_of (addAll ReferenceTable.fresh l) k (halloc (by omega))
      hk1 hk15
    have hfold : addAll ReferenceTable.fresh l =
        addAll ((addAll ReferenceTable.fresh (l.take (l.length - k))).add
          l[l.length - k]) (l.drop (l.length - k + 1)) := by
      conv_lhs => rw [hsplit]
      rw [addAll_append, addAll_cons]
    refine ⟨((l.length % 15000 + 15000 - k) % 15000) * 256, by rw [hget, hcurT], ?_⟩
    intro j hj
    rw [htgt] at hj
    have hslot : (l.length % 15000 + 15000 - k) % 15000 = (l.length - k) % 15000 := by
      omega
    rw [htgt, hslot, hfold]
    -- the writes after the target never land on its slot
    rw [addAll_table_preserved (l.drop (l.length - k + 1)) _ _ j hlen₂
      (by rw [hcur₂]; omega) (by omega) ?noclash (by omega)]
    case noclash =>
      intro j' hj'
      rw [hcur₂]
      rw [hlen₂l] at hj'
      omega
    -- the target's own write
    rw [add_short _ _ htlen]
    dsimp only
    rw [hcur₁]
    exact writeBytes_inside _ _ _ j hj
  · intro hk
    exact get_error_of _ k (Or.inr (by omega))
  · intro hN hmin hk15
    have hget := get_ok_of (addAll ReferenceTable.fresh l) k (halloc hN)
      (by omega : 1 ≤ k) hk15
    exact ⟨_, hget⟩

/-- Witness for C4 at one concrete insertion: `get 1` returns slot 0 holding
the inserted bytes. -/
theorem refTable_fifo_witness :
    ([(0x61 : UInt8), 0x00].length ≤ 252) ∧ 1 ≤ 1 ∧
      1 ≤ min (List.length [[(0x61 : UInt8), 0x00]]) 15000 ∧
    (∃ off, (addAll ReferenceTable.fresh [[0x61, 0x00]]).get 1 = .ok off ∧
      ∀ j < (([[(0x61 : UInt8), 0x00]].getD
          (List.length [[(0x61 : UInt8), 0x00]] - 1) [])).length,
        (addAll ReferenceTable.fresh [[0x61, 0x00]]).table (off + j) =
          ([[(0x61 : UInt8), 0x00]].getD
            (List.length [[(0x61 : UInt8), 0x00]] - 1) []).getD j 0) :=
  ⟨by decide, by decide, by decide,
    (refTable_fifo [[0x61, 0x00]] 1 (by
      intro s hs
      simp only [List.mem_singleton] at hs
      rw [hs]
      decide)).1 (by decide) (by decide)⟩

end O5m
